import Mathlib

/-!
Shallow embedding of the feedmaster worker core (backend/polling_worker.py,
backend/crud.py, backend/stats_worker.py, backend/aggregations/*.py) and
proofs about it.  Python float quantities (ages and intervals in hours) are
modelled by exact rationals, timestamps by rationals or integers, machine
integers by Nat/Int.  Database tables are modelled as lists of rows and
SQL upserts as list transformations that mirror the ON CONFLICT clauses
of the source column by column.
-/

/-! ## Polling worker: schedule configuration (backend/polling_worker.py)

The deactivation rules and tiers are read from `polling_config.json` via
`rules.get(key, default)`.  The default config file written by
`load_polling_config` does not contain the `first_poll_age_hours` ..
`fifth_poll_age_hours` keys, so under the default configuration the
`.get` fallbacks (0.084, 0.167, 0.334, 0.5, 1.0, elimination score 0,
threshold 3, hard stop 168.0) are in effect.  Decimal float literals of
the source are modelled as exact rationals. -/

structure DeactivationRules where
  hard_stop_hours : ℚ
  first_poll_age_hours : ℚ
  second_poll_age_hours : ℚ
  third_poll_age_hours : ℚ
  fourth_poll_age_hours : ℚ
  fifth_poll_age_hours : ℚ
  fourth_poll_elimination_score : ℤ
  fifth_poll_elimination_score_threshold : ℤ
deriving Repr, DecidableEq

structure PollingTier where
  max_age_hours : ℚ
  interval_hours : ℚ
deriving Repr, DecidableEq

def defaultDeactivationRules : DeactivationRules :=
  { hard_stop_hours := 168
    first_poll_age_hours := 84/1000
    second_poll_age_hours := 167/1000
    third_poll_age_hours := 334/1000
    fourth_poll_age_hours := 1/2
    fifth_poll_age_hours := 1
    fourth_poll_elimination_score := 0
    fifth_poll_elimination_score_threshold := 3 }

def defaultPollingTiers : List PollingTier :=
  [⟨24, 2⟩, ⟨48, 6⟩, ⟨72, 12⟩, ⟨168, 24⟩]

/-- The `for tier in tiers` walk at the end of `get_next_poll_schedule`:
first tier with `post_age_hours <= tier.max_age_hours` wins. -/
def findTierDelta (tiers : List PollingTier) (post_age_hours : ℚ) : Option ℚ :=
  match tiers with
  | [] => none
  | t :: rest =>
      if post_age_hours ≤ t.max_age_hours then some t.interval_hours
      else findTierDelta rest post_age_hours

/-- `get_next_poll_schedule(post_uri, post_age_hours, engagement_score)`
from backend/polling_worker.py.  Returns the timedelta (in hours) until the
next poll, or `none` when the post is to be deactivated. -/
def get_next_poll_schedule (rules : DeactivationRules) (tiers : List PollingTier)
    (post_age_hours : ℚ) (engagement_score : ℤ) : Option ℚ :=
  if rules.hard_stop_hours < post_age_hours then none
  else if post_age_hours ≤ rules.first_poll_age_hours then
    some (rules.second_poll_age_hours - post_age_hours)
  else if post_age_hours ≤ rules.second_poll_age_hours then
    some (rules.third_poll_age_hours - post_age_hours)
  else if post_age_hours ≤ rules.third_poll_age_hours then
    some (rules.fourth_poll_age_hours - post_age_hours)
  else if post_age_hours ≤ rules.fourth_poll_age_hours then
    if engagement_score = rules.fourth_poll_elimination_score then none
    else some (rules.fifth_poll_age_hours - post_age_hours)
  else if post_age_hours ≤ rules.fifth_poll_age_hours then
    if engagement_score ≤ rules.fifth_poll_elimination_score_threshold then none
    else findTierDelta tiers post_age_hours
  else findTierDelta tiers post_age_hours

/-! ## Engagement score (backend/polling_worker.py, backend/config.py) -/

/-- `calculate_engagement_score` from backend/polling_worker.py: the point
system is hard-coded as 1 per like, 2 per repost, 3 per reply. -/
def calculate_engagement_score (like_count repost_count reply_count : ℕ) : ℕ :=
  like_count * 1 + repost_count * 2 + reply_count * 3

/-- `EngagementSettings` from backend/config.py (environment-configurable,
defaults 1, 2, 3). -/
structure EngagementSettings where
  LIKE_WEIGHT : ℕ
  REPOST_WEIGHT : ℕ
  REPLY_WEIGHT : ℕ
deriving Repr, DecidableEq

def defaultEngagementSettings : EngagementSettings :=
  { LIKE_WEIGHT := 1, REPOST_WEIGHT := 2, REPLY_WEIGHT := 3 }

/-- The engagement expression used by the aggregate orderings
(backend/aggregations/user_aggregates.py, `calculate_top_users`):
`like_count * LIKE_WEIGHT + repost_count * REPOST_WEIGHT + reply_count * REPLY_WEIGHT`. -/
def aggregatePostScore (s : EngagementSettings) (like_count repost_count reply_count : ℕ) : ℕ :=
  like_count * s.LIKE_WEIGHT + repost_count * s.REPOST_WEIGHT + reply_count * s.REPLY_WEIGHT

/-! ## C1 -/

/-- C1: under the default deactivation rules and polling tiers,
`get_next_poll_schedule` retires a post strictly older than
`hard_stop_hours` (age exactly 168 is still scheduled, 24 hours later); at
the three earliest checkpoints it only reschedules to the next checkpoint;
at the fourth (~30 min) checkpoint it retires exactly when the score is 0;
at the fifth (~60 min) checkpoint it retires exactly when the score is at
most 3 and otherwise falls to the first tier accepting the age (interval 2
hours); between 1 hour and the hard stop it schedules by the tier walk; and
with the default rules it retires whenever no tier accepts the age. -/
theorem get_next_poll_schedule_matches_spec (age : ℚ) (score : ℤ) :
    (168 < age → get_next_poll_schedule defaultDeactivationRules defaultPollingTiers age score = none)
    ∧ (get_next_poll_schedule defaultDeactivationRules defaultPollingTiers 168 score = some 24)
    ∧ (age ≤ 84/1000 →
        get_next_poll_schedule defaultDeactivationRules defaultPollingTiers age score
          = some (167/1000 - age))
    ∧ (84/1000 < age → age ≤ 167/1000 →
        get_next_poll_schedule defaultDeactivationRules defaultPollingTiers age score
          = some (334/1000 - age))
    ∧ (167/1000 < age → age ≤ 334/1000 →
        get_next_poll_schedule defaultDeactivationRules defaultPollingTiers age score
          = some (1/2 - age))
    ∧ (334/1000 < age → age ≤ 1/2 →
        (get_next_poll_schedule defaultDeactivationRules defaultPollingTiers age score = none
          ↔ score = 0))
    ∧ (334/1000 < age → age ≤ 1/2 → score ≠ 0 →
        get_next_poll_schedule defaultDeactivationRules defaultPollingTiers age score
          = some (1 - age))
    ∧ (1/2 < age → age ≤ 1 →
        (get_next_poll_schedule defaultDeactivationRules defaultPollingTiers age score = none
          ↔ score ≤ 3))
    ∧ (1/2 < age → age ≤ 1 → 3 < score →
        get_next_poll_schedule defaultDeactivationRules defaultPollingTiers age score = some 2)
    ∧ (1 < age → age ≤ 168 →
        get_next_poll_schedule defaultDeactivationRules defaultPollingTiers age score
          = findTierDelta defaultPollingTiers age)
    ∧ (∀ tiers : List PollingTier, 1 < age → age ≤ 168 →
        (∀ t ∈ tiers, t.max_age_hours < age) →
        get_next_poll_schedule defaultDeactivationRules tiers age score = none) := by
  have htiers : ∀ (tiers : List PollingTier) (a : ℚ), (∀ t ∈ tiers, t.max_age_hours < a) →
      findTierDelta tiers a = none := by
    intro tiers a h
    induction tiers with
    | nil => rfl
    | cons t rest ih =>
        have h1 := h t (by simp)
        simp only [findTierDelta, if_neg (not_le.mpr h1)]
        exact ih fun u hu => h u (by simp [hu])
  refine ⟨?_, ?_, ?_, ?_, ?_, ?_, ?_, ?_, ?_, ?_, ?_⟩
  · intro h
    simp only [get_next_poll_schedule, defaultDeactivationRules]
    rw [if_pos h]
  · simp only [get_next_poll_schedule, defaultDeactivationRules, defaultPollingTiers,
      findTierDelta]
    norm_num
  · intro h
    simp only [get_next_poll_schedule, defaultDeactivationRules]
    rw [if_neg (by linarith : ¬ (168:ℚ) < age), if_pos h]
  · intro h1 h2
    simp only [get_next_poll_schedule, defaultDeactivationRules]
    rw [if_neg (by linarith : ¬ (168:ℚ) < age), if_neg (not_le.mpr h1), if_pos h2]
  · intro h1 h2
    simp only [get_next_poll_schedule, defaultDeactivationRules]
    rw [if_neg (by linarith : ¬ (168:ℚ) < age), if_neg (by linarith : ¬ age ≤ 84/1000),
      if_neg (not_le.mpr h1), if_pos h2]
  · intro h1 h2
    simp only [get_next_poll_schedule, defaultDeactivationRules]
    rw [if_neg (by linarith : ¬ (168:ℚ) < age), if_neg (by linarith : ¬ age ≤ 84/1000),
      if_neg (by linarith : ¬ age ≤ 167/1000), if_neg (not_le.mpr h1), if_pos h2]
    constructor
    · intro h
      by_contra hs
      rw [if_neg hs] at h
      exact Option.noConfusion h
    · intro hs
      rw [if_pos hs]
  · intro h1 h2 hs
    simp only [get_next_poll_schedule, defaultDeactivationRules]
    rw [if_neg (by linarith : ¬ (168:ℚ) < age), if_neg (by linarith : ¬ age ≤ 84/1000),
      if_neg (by linarith : ¬ age ≤ 167/1000), if_neg (not_le.mpr h1), if_pos h2, if_neg hs]
  · intro h1 h2
    simp only [get_next_poll_schedule, defaultDeactivationRules, defaultPollingTiers]
    rw [if_neg (by linarith : ¬ (168:ℚ) < age), if_neg (by linarith : ¬ age ≤ 84/1000),
      if_neg (by linarith : ¬ age ≤ 167/1000), if_neg (by linarith : ¬ age ≤ 334/1000),
      if_neg (not_le.mpr h1), if_pos h2]
    constructor
    · intro h
      by_contra hs
      rw [if_neg hs] at h
      simp only [findTierDelta] at h
      rw [if_pos (by linarith : age ≤ (24:ℚ))] at h
      exact Option.noConfusion h
    · intro hs
      rw [if_pos hs]
  · intro h1 h2 hs
    simp only [get_next_poll_schedule, defaultDeactivationRules, defaultPollingTiers]
    rw [if_neg (by linarith : ¬ (168:ℚ) < age), if_neg (by linarith : ¬ age ≤ 84/1000),
      if_neg (by linarith : ¬ age ≤ 167/1000), if_neg (by linarith : ¬ age ≤ 334/1000),
      if_neg (not_le.mpr h1), if_pos h2, if_neg (not_le.mpr hs)]
    simp only [findTierDelta]
    rw [if_pos (by linarith : age ≤ (24:ℚ))]
  · intro h1 h2
    simp only [get_next_poll_schedule, defaultDeactivationRules]
    rw [if_neg (by linarith : ¬ (168:ℚ) < age), if_neg (by linarith : ¬ age ≤ 84/1000),
      if_neg (by linarith : ¬ age ≤ 167/1000), if_neg (by linarith : ¬ age ≤ 334/1000),
      if_neg (by linarith : ¬ age ≤ 1/2), if_neg (by linarith : ¬ age ≤ 1)]
  · intro tiers h1 h2 h3
    simp only [get_next_poll_schedule, defaultDeactivationRules]
    rw [if_neg (by linarith : ¬ (168:ℚ) < age), if_neg (by linarith : ¬ age ≤ 84/1000),
      if_neg (by linarith : ¬ age ≤ 167/1000), if_neg (by linarith : ¬ age ≤ 334/1000),
      if_neg (by linarith : ¬ age ≤ 1/2), if_neg (by linarith : ¬ age ≤ 1)]
    exact htiers tiers age h3

/-- C1 witness: concrete checkpoints.  A post aged 30 minutes with score 0
is deactivated; a post aged 168 hours is still scheduled; one aged a bit
more is retired. -/
theorem get_next_poll_schedule_matches_spec_witness :
    get_next_poll_schedule defaultDeactivationRules defaultPollingTiers (2/5) 0 = none
    ∧ get_next_poll_schedule defaultDeactivationRules defaultPollingTiers 168 7 = some 24
    ∧ get_next_poll_schedule defaultDeactivationRules defaultPollingTiers 169 7 = none :=
  ⟨((get_next_poll_schedule_matches_spec (2/5) 0).2.2.2.2.2.1 (by norm_num) (by norm_num)).mpr rfl,
   (get_next_poll_schedule_matches_spec 168 7).2.1,
   (get_next_poll_schedule_matches_spec 169 7).1 (by norm_num)⟩

/-! ## Post storage (backend/crud.py `upsert_posts_batch`, backend/polling_worker.py
`poll_and_update_posts`)

A Post row, restricted to the scalar columns the claims are about.
Timestamps are rationals measured in hours so that post ages
(`(now - post.created_at).total_seconds() / 3600`) and poll deltas live in
one unit. -/

structure PostRow where
  uri : String
  cid : String
  text : String
  created_at : ℚ
  ingested_at : ℚ
  author_did : String
  hashtags : List String
  like_count : ℕ
  repost_count : ℕ
  reply_count : ℕ
  quote_count : ℕ
  engagement_score : ℕ
  next_poll_at : Option ℚ
  is_active_for_polling : Bool
deriving Repr, DecidableEq

/-- `schemas.PostCreate`, restricted to the same columns. -/
structure PostCreate where
  uri : String
  cid : String
  text : String
  created_at : ℚ
  author_did : String
  hashtags : List String
  like_count : ℕ
  repost_count : ℕ
  reply_count : ℕ
  quote_count : ℕ
  engagement_score : ℕ
  next_poll_at : Option ℚ
  is_active_for_polling : Bool
deriving Repr, DecidableEq

/-- The ON CONFLICT (cid) DO UPDATE SET clause of `upsert_posts_batch`:
mutable columns (uri, text, ingested_at, embeds family, engagement counters,
score, polling fields) are overwritten from the excluded row; `created_at`
and `author_did` are not in the SET list and keep the stored values. -/
def applyConflictUpdate (r : PostRow) (p : PostCreate) (now : ℚ) : PostRow :=
  { r with
    uri := p.uri
    text := p.text
    ingested_at := now
    hashtags := p.hashtags
    like_count := p.like_count
    repost_count := p.repost_count
    reply_count := p.reply_count
    quote_count := p.quote_count
    engagement_score := p.engagement_score
    next_poll_at := p.next_poll_at
    is_active_for_polling := p.is_active_for_polling }

/-- The plain-insert half of the upsert: every column comes from the
incoming values, `ingested_at` is `datetime.now()`. -/
def newPostRow (p : PostCreate) (now : ℚ) : PostRow :=
  { uri := p.uri
    cid := p.cid
    text := p.text
    created_at := p.created_at
    ingested_at := now
    author_did := p.author_did
    hashtags := p.hashtags
    like_count := p.like_count
    repost_count := p.repost_count
    reply_count := p.reply_count
    quote_count := p.quote_count
    engagement_score := p.engagement_score
    next_poll_at := p.next_poll_at
    is_active_for_polling := p.is_active_for_polling }

/-- One row of `upsert_posts_batch`: INSERT .. ON CONFLICT (cid) DO UPDATE.
The ingestion worker de-duplicates each batch by CID before calling the
statement, so the batch is the fold of its rows. -/
def upsertPost (table : List PostRow) (p : PostCreate) (now : ℚ) : List PostRow :=
  if table.any (fun r => r.cid == p.cid) then
    table.map (fun r => if r.cid == p.cid then applyConflictUpdate r p now else r)
  else
    table ++ [newPostRow p now]

/-- `upsert_posts_batch` over a whole (CID-de-duplicated) batch. -/
def upsert_posts_batch (table : List PostRow) (batch : List PostCreate) (now : ℚ) : List PostRow :=
  batch.foldl (fun acc p => upsertPost acc p now) table

/-- Row lookup by CID, as the post-upsert refetch does. -/
def lookupCid (table : List PostRow) (cid : String) : Option PostRow :=
  table.find? (fun r => r.cid == cid)

/-- The polling-worker update for a URI present in the API response
(backend/polling_worker.py, `poll_and_update_posts`): overwrite the three
counters with the fetched values, recompute `engagement_score`, then either
deactivate (schedule `None`: `is_active_for_polling = False`,
`next_poll_at = None`) or set `next_poll_at = now + next_schedule`. -/
def pollUpdateRow (rules : DeactivationRules) (tiers : List PollingTier)
    (r : PostRow) (likeCount repostCount replyCount : ℕ) (now : ℚ) : PostRow :=
  let score := calculate_engagement_score likeCount repostCount replyCount
  let post_age_hours := now - r.created_at
  match get_next_poll_schedule rules tiers post_age_hours (score : ℤ) with
  | none =>
      { r with
        like_count := likeCount
        repost_count := repostCount
        reply_count := replyCount
        engagement_score := score
        is_active_for_polling := false
        next_poll_at := none }
  | some delta =>
      { r with
        like_count := likeCount
        repost_count := repostCount
        reply_count := replyCount
        engagement_score := score
        next_poll_at := some (now + delta) }

/-- The polling-worker branch for a URI absent from the API response
(deleted upstream): `is_active_for_polling = False` and `next_poll_at = None`
in the same update. -/
def pollDeactivate (r : PostRow) : PostRow :=
  { r with is_active_for_polling := false, next_poll_at := none }

/-- One step of the core on the posts table: an ingestion upsert (both
ingestion paths construct their `PostCreate` with
`is_active_for_polling=True`), a polling update of a due post (only posts
with `is_active_for_polling` true are selected by `get_posts_due_for_poll`),
or a retirement of a deleted-upstream post. -/
inductive CoreStep (rules : DeactivationRules) (tiers : List PollingTier) :
    List PostRow → List PostRow → Prop where
  | ingest (table : List PostRow) (p : PostCreate) (now : ℚ)
      (hactive : p.is_active_for_polling = true) :
      CoreStep rules tiers table (upsertPost table p now)
  | poll (table : List PostRow) (uri : String) (likeCount repostCount replyCount : ℕ) (now : ℚ)
      (hdue : ∀ r ∈ table, r.uri = uri → r.is_active_for_polling = true) :
      CoreStep rules tiers table
        (table.map fun r =>
          if r.uri == uri then pollUpdateRow rules tiers r likeCount repostCount replyCount now
          else r)
  | retire (table : List PostRow) (uri : String) :
      CoreStep rules tiers table
        (table.map fun r => if r.uri == uri then pollDeactivate r else r)

/-- States of the posts table reachable from the empty table by core steps. -/
def ReachablePosts (rules : DeactivationRules) (tiers : List PollingTier)
    (table : List PostRow) : Prop :=
  Relation.ReflTransGen (CoreStep rules tiers) [] table

/-! ## C2: re-ingesting the same CID -/

/-- Helper: a CID absent from every row is not found. -/
theorem lookupCid_eq_none (T : List PostRow) (c : String) (h : ∀ r ∈ T, r.cid ≠ c) :
    lookupCid T c = none := by
  induction T with
  | nil => rfl
  | cons a t ih =>
      have ha : (a.cid == c) = false := beq_eq_false_iff_ne.mpr (h a (by simp))
      have ht : lookupCid t c = none := ih fun r hr => h r (by simp [hr])
      simp only [lookupCid, List.find?_cons, ha] at ht ⊢
      exact ht

/-- Helper: looking up a freshly appended row. -/
theorem lookupCid_append_singleton (T : List PostRow) (x : PostRow) (c : String)
    (h : ∀ r ∈ T, r.cid ≠ c) (hx : x.cid = c) :
    lookupCid (T ++ [x]) c = some x := by
  induction T with
  | nil => simp [lookupCid, List.find?_cons, hx]
  | cons a t ih =>
      have ha : (a.cid == c) = false := beq_eq_false_iff_ne.mpr (h a (by simp))
      have ht := ih fun r hr => h r (by simp [hr])
      simp only [lookupCid, List.cons_append, List.find?_cons, ha] at ht ⊢
      exact ht

/-- C2: upserting the same `PostCreate` (same message, hence same CID) twice
into a table that did not contain the CID yields the row state of the first
upsert with only `ingested_at` refreshed; `created_at` keeps the first-write
value, and in general the ON CONFLICT update never touches `created_at`. -/
theorem upsert_same_cid_refreshes_only_ingested_at (T : List PostRow) (p : PostCreate)
    (t1 t2 : ℚ) (hfresh : ∀ r ∈ T, r.cid ≠ p.cid) :
    lookupCid (upsertPost (upsertPost T p t1) p t2) p.cid
      = (lookupCid (upsertPost T p t1) p.cid).map (fun r => { r with ingested_at := t2 })
    ∧ (∀ r, lookupCid (upsertPost (upsertPost T p t1) p t2) p.cid = some r →
        r.created_at = p.created_at)
    ∧ (∀ (r : PostRow) (q : PostCreate) (now : ℚ),
        (applyConflictUpdate r q now).created_at = r.created_at) := by
  have hany : T.any (fun r => r.cid == p.cid) = false := by
    rw [List.any_eq_false]
    intro r hr
    simp only [beq_iff_eq]
    exact hfresh r hr
  have hT1 : upsertPost T p t1 = T ++ [newPostRow p t1] := by
    rw [upsertPost, if_neg (by simp [hany])]
  have hlook1 : lookupCid (upsertPost T p t1) p.cid = some (newPostRow p t1) := by
    rw [hT1]
    exact lookupCid_append_singleton T _ p.cid hfresh rfl
  have hany2 : (upsertPost T p t1).any (fun r => r.cid == p.cid) = true := by
    rw [hT1, List.any_append]
    simp [newPostRow]
  have hT2 : upsertPost (upsertPost T p t1) p t2
      = T.map (fun r => if r.cid == p.cid then applyConflictUpdate r p t2 else r)
        ++ [applyConflictUpdate (newPostRow p t1) p t2] := by
    rw [upsertPost, if_pos hany2, hT1, List.map_append]
    simp [newPostRow]
  have hmapT : T.map (fun r => if r.cid == p.cid then applyConflictUpdate r p t2 else r) = T := by
    have hpt : ∀ r ∈ T, (if r.cid == p.cid then applyConflictUpdate r p t2 else r) = r := by
      intro r hr
      rw [if_neg (by simp only [beq_iff_eq]; exact hfresh r hr)]
    calc T.map (fun r => if r.cid == p.cid then applyConflictUpdate r p t2 else r)
        = T.map id := List.map_congr_left hpt
      _ = T := List.map_id T
  have hlook2 : lookupCid (upsertPost (upsertPost T p t1) p t2) p.cid
      = some (applyConflictUpdate (newPostRow p t1) p t2) := by
    rw [hT2, hmapT]
    exact lookupCid_append_singleton T _ p.cid hfresh rfl
  refine ⟨?_, ?_, fun r q now => rfl⟩
  · rw [hlook1, hlook2]
    rfl
  · intro r hr
    rw [hlook2] at hr
    cases hr
    rfl

/-- C2 witness at a concrete message, empty table and two ingestion times. -/
def pcWitness : PostCreate :=
  { uri := "at://did:plc:w/app.bsky.feed.post/1", cid := "bafyw", text := "hello",
    created_at := 10, author_did := "did:plc:w", hashtags := ["world"],
    like_count := 0, repost_count := 0, reply_count := 0, quote_count := 0,
    engagement_score := 0, next_poll_at := some 10, is_active_for_polling := true }

theorem upsert_same_cid_refreshes_only_ingested_at_witness :
    lookupCid (upsertPost (upsertPost [] pcWitness 10) pcWitness 12) pcWitness.cid
      = (lookupCid (upsertPost [] pcWitness 10) pcWitness.cid).map
          (fun r => { r with ingested_at := 12 })
    ∧ lookupCid (upsertPost [] pcWitness 10) pcWitness.cid = some (newPostRow pcWitness 10) :=
  ⟨(upsert_same_cid_refreshes_only_ingested_at [] pcWitness 10 12 (by simp)).1,
   by simp [upsertPost, lookupCid, List.find?_cons, pcWitness, newPostRow]⟩

/-! ## C8: inactive posts carry no poll time -/

/-- The quantified invariant: a post with `is_active_for_polling = false`
has `next_poll_at` null. -/
def PostsPollingInvariant (table : List PostRow) : Prop :=
  ∀ r ∈ table, r.is_active_for_polling = false → r.next_poll_at = none

theorem coreStep_preserves_invariant (rules : DeactivationRules) (tiers : List PollingTier)
    (T U : List PostRow) (h : CoreStep rules tiers T U) (hT : PostsPollingInvariant T) :
    PostsPollingInvariant U := by
  cases h with
  | ingest p now hactive =>
      intro r hr
      rw [upsertPost] at hr
      by_cases hany : T.any (fun s => s.cid == p.cid) = true
      · rw [if_pos hany] at hr
        obtain ⟨s, hs, hrs⟩ := List.mem_map.mp hr
        by_cases hc : (s.cid == p.cid) = true
        · rw [if_pos hc] at hrs
          intro hact
          rw [← hrs] at hact
          simp [applyConflictUpdate, hactive] at hact
        · rw [if_neg hc] at hrs
          exact hrs ▸ hT s hs
      · rw [if_neg hany] at hr
        rcases List.mem_append.mp hr with hr | hr
        · exact hT r hr
        · intro hact
          simp only [List.mem_singleton] at hr
          rw [hr] at hact
          simp [newPostRow, hactive] at hact
  | poll uri lc rc pc now hdue =>
      intro r hr
      obtain ⟨s, hs, hrs⟩ := List.mem_map.mp hr
      by_cases hu : (s.uri == uri) = true
      · rw [if_pos hu] at hrs
        have hsact : s.is_active_for_polling = true := hdue s hs (by simpa using hu)
        intro hact
        rw [← hrs] at hact ⊢
        rw [pollUpdateRow] at hact ⊢
        cases hsched : get_next_poll_schedule rules tiers (now - s.created_at)
            ((calculate_engagement_score lc rc pc : ℕ) : ℤ) with
        | none => simp [hsched]
        | some d =>
            rw [hsched] at hact
            simp only at hact
            rw [hsact] at hact
            exact absurd hact (by simp)
      · rw [if_neg hu] at hrs
        exact hrs ▸ hT s hs
  | retire uri =>
      intro r hr
      obtain ⟨s, hs, hrs⟩ := List.mem_map.mp hr
      by_cases hu : (s.uri == uri) = true
      · rw [if_pos hu] at hrs
        intro _
        rw [← hrs]
        rfl
      · rw [if_neg hu] at hrs
        exact hrs ▸ hT s hs

/-- C8: in every posts-table state reachable by the core operations
(ingestion upsert, polling update, retirement), a post with
`is_active_for_polling = false` has `next_poll_at` null; moreover both
retirement paths of the polling worker set the two fields together in the
same update. -/
theorem reachable_inactive_has_no_poll_time (rules : DeactivationRules)
    (tiers : List PollingTier) (T : List PostRow) (h : ReachablePosts rules tiers T) :
    PostsPollingInvariant T
    ∧ (∀ r : PostRow, (pollDeactivate r).is_active_for_polling = false
        ∧ (pollDeactivate r).next_poll_at = none)
    ∧ (∀ (r : PostRow) (lc rc pc : ℕ) (now : ℚ),
        get_next_poll_schedule rules tiers (now - r.created_at)
          ((calculate_engagement_score lc rc pc : ℕ) : ℤ) = none →
        (pollUpdateRow rules tiers r lc rc pc now).is_active_for_polling = false
          ∧ (pollUpdateRow rules tiers r lc rc pc now).next_poll_at = none) := by
  refine ⟨?_, fun r => ⟨rfl, rfl⟩, ?_⟩
  · induction h with
    | refl => intro r hr; cases hr
    | tail _ hstep ih => exact coreStep_preserves_invariant rules tiers _ _ hstep ih
  · intro r lc rc pc now hsched
    rw [pollUpdateRow]
    rw [hsched]
    exact ⟨rfl, rfl⟩

/-! ## Helper lemmas about the polling update -/

theorem pollUpdateRow_counters (rules : DeactivationRules) (tiers : List PollingTier)
    (r : PostRow) (lc rc pc : ℕ) (now : ℚ) :
    (pollUpdateRow rules tiers r lc rc pc now).like_count = lc
    ∧ (pollUpdateRow rules tiers r lc rc pc now).repost_count = rc
    ∧ (pollUpdateRow rules tiers r lc rc pc now).reply_count = pc
    ∧ (pollUpdateRow rules tiers r lc rc pc now).engagement_score
        = calculate_engagement_score lc rc pc
    ∧ (pollUpdateRow rules tiers r lc rc pc now).cid = r.cid
    ∧ (pollUpdateRow rules tiers r lc rc pc now).uri = r.uri := by
  cases h : get_next_poll_schedule rules tiers (now - r.created_at)
      ((calculate_engagement_score lc rc pc : ℕ) : ℤ) with
  | none => simp [pollUpdateRow, h]
  | some d => simp [pollUpdateRow, h]

theorem pollUpdateRow_active_of_scheduled (rules : DeactivationRules) (tiers : List PollingTier)
    (r : PostRow) (lc rc pc : ℕ) (now : ℚ) (d : ℚ)
    (h : get_next_poll_schedule rules tiers (now - r.created_at)
        ((calculate_engagement_score lc rc pc : ℕ) : ℤ) = some d) :
    (pollUpdateRow rules tiers r lc rc pc now).is_active_for_polling
      = r.is_active_for_polling := by
  simp [pollUpdateRow, h]

/-! ## C7: engagement score versus the configurable weights -/

/-- Concrete post used by the C7 and C9 counterexamples. -/
def pcEx : PostCreate :=
  { uri := "at://did:plc:x/app.bsky.feed.post/1", cid := "cid1", text := "hi",
    created_at := 0, author_did := "did:plc:x", hashtags := [],
    like_count := 0, repost_count := 0, reply_count := 0, quote_count := 0,
    engagement_score := 0, next_poll_at := some 0, is_active_for_polling := true }

/-- C7 counterexample: with the weights configured away from the defaults
(here LIKE_WEIGHT = 5), the engagement score written by the polling worker
(hard-coded 1/2/3 point system) differs from the configurable-weight
formula used by the aggregate orderings, so the claim does not hold for
every configuration of the weights. -/
theorem polled_score_ignores_configured_weights :
    (pollUpdateRow defaultDeactivationRules defaultPollingTiers (newPostRow pcEx 0)
        1 0 0 2).engagement_score
      ≠ aggregatePostScore ⟨5, 2, 3⟩ 1 0 0 := by
  rw [(pollUpdateRow_counters defaultDeactivationRules defaultPollingTiers
    (newPostRow pcEx 0) 1 0 0 2).2.2.2.1]
  decide

/-- C7 amended: the polling worker writes
`engagement_score = 1·likes + 2·reposts + 3·replies`, which coincides with
the configurable-weight expression of the aggregate orderings exactly at the
default weights (1, 2, 3): every polled row satisfies the weighted formula
with the default settings. -/
theorem polled_score_equals_default_weight_formula :
    (∀ lc rc pc : ℕ, calculate_engagement_score lc rc pc
        = aggregatePostScore defaultEngagementSettings lc rc pc)
    ∧ (∀ (rules : DeactivationRules) (tiers : List PollingTier) (r : PostRow)
        (lc rc pc : ℕ) (now : ℚ),
        (pollUpdateRow rules tiers r lc rc pc now).engagement_score
          = aggregatePostScore defaultEngagementSettings lc rc pc) := by
  constructor
  · intro lc rc pc
    rfl
  · intro rules tiers r lc rc pc now
    rw [(pollUpdateRow_counters rules tiers r lc rc pc now).2.2.2.1]
    rfl

/-! ## C9: counters across core steps -/

def postsT0 : List PostRow := upsertPost [] pcEx 0

def postsT1 : List PostRow :=
  postsT0.map fun r =>
    if r.uri == pcEx.uri then
      pollUpdateRow defaultDeactivationRules defaultPollingTiers r 5 0 0 2
    else r

def postsT2 : List PostRow := upsertPost postsT1 pcEx 3

/-- The row of `pcEx` after the polling worker has raised its like count
to 5 at age 2 hours (tier 1, next poll 2 hours later). -/
def rowExPolled : PostRow :=
  { uri := "at://did:plc:x/app.bsky.feed.post/1", cid := "cid1", text := "hi",
    created_at := 0, ingested_at := 0, author_did := "did:plc:x", hashtags := [],
    like_count := 5, repost_count := 0, reply_count := 0, quote_count := 0,
    engagement_score := 5, next_poll_at := some 4, is_active_for_polling := true }

/-- The same row after a duplicate of the original message is re-ingested at
time 3: the conflict update resets the counters to the message values. -/
def rowExReingested : PostRow :=
  { uri := "at://did:plc:x/app.bsky.feed.post/1", cid := "cid1", text := "hi",
    created_at := 0, ingested_at := 3, author_did := "did:plc:x", hashtags := [],
    like_count := 0, repost_count := 0, reply_count := 0, quote_count := 0,
    engagement_score := 0, next_poll_at := some 0, is_active_for_polling := true }

/-- C9 counterexample: a reachable run in which a post is ingested, polled
up to `like_count = 5` while still active for polling, and then re-ingested
from a duplicate of the original message (same CID), which overwrites the
counters with the message values: `like_count` drops from 5 to 0 across a
core step taken while `is_active_for_polling` is true. -/
theorem like_count_decreases_on_reingestion :
    ReachablePosts defaultDeactivationRules defaultPollingTiers postsT2
    ∧ CoreStep defaultDeactivationRules defaultPollingTiers postsT1 postsT2
    ∧ lookupCid postsT1 "cid1" = some rowExPolled
    ∧ rowExPolled.is_active_for_polling = true
    ∧ lookupCid postsT2 "cid1" = some rowExReingested
    ∧ rowExReingested.like_count < rowExPolled.like_count := by
  have h0 : postsT0 = [newPostRow pcEx 0] := by
    simp [postsT0, upsertPost]
  have hsched : get_next_poll_schedule defaultDeactivationRules defaultPollingTiers
      ((2 : ℚ) - (newPostRow pcEx 0).created_at)
      ((calculate_engagement_score 5 0 0 : ℕ) : ℤ) = some 2 := by
    norm_num [get_next_poll_schedule, defaultDeactivationRules, defaultPollingTiers,
      findTierDelta, newPostRow, pcEx, calculate_engagement_score]
  have hx : pollUpdateRow defaultDeactivationRules defaultPollingTiers
      (newPostRow pcEx 0) 5 0 0 2 = rowExPolled := by
    simp only [pollUpdateRow]
    rw [hsched]
    simp only [newPostRow, pcEx, calculate_engagement_score, rowExPolled]
    norm_num
  have huri : ((newPostRow pcEx 0).uri == pcEx.uri) = true := by
    simp [newPostRow]
  have h1 : postsT1 = [rowExPolled] := by
    rw [postsT1, h0, List.map_cons, List.map_nil, if_pos huri, hx]
  have hfind1 : (rowExPolled.cid == "cid1") = true := by decide
  have hlook1 : lookupCid postsT1 "cid1" = some rowExPolled := by
    rw [h1, lookupCid, List.find?_cons]
    simp [hfind1]
  have hany2 : postsT1.any (fun r => r.cid == pcEx.cid) = true := by
    rw [h1]
    simp [rowExPolled, pcEx]
  have hc2 : (rowExPolled.cid == pcEx.cid) = true := by decide
  have happly : applyConflictUpdate rowExPolled pcEx 3 = rowExReingested := by
    simp only [applyConflictUpdate, rowExPolled, pcEx, rowExReingested]
  have h2 : postsT2 = [rowExReingested] := by
    rw [postsT2, upsertPost, if_pos hany2, h1, List.map_cons, List.map_nil, if_pos hc2, happly]
  have hfind2 : (rowExReingested.cid == "cid1") = true := by decide
  have hlook2 : lookupCid postsT2 "cid1" = some rowExReingested := by
    rw [h2, lookupCid, List.find?_cons]
    simp [hfind2]
  have hdue : ∀ r ∈ postsT0, r.uri = pcEx.uri → r.is_active_for_polling = true := by
    intro r hr _
    rw [h0] at hr
    simp only [List.mem_singleton] at hr
    rw [hr]
    rfl
  have s1 : CoreStep defaultDeactivationRules defaultPollingTiers [] postsT0 :=
    CoreStep.ingest [] pcEx 0 rfl
  have s2 : CoreStep defaultDeactivationRules defaultPollingTiers postsT0 postsT1 :=
    CoreStep.poll postsT0 pcEx.uri 5 0 0 2 hdue
  have s3 : CoreStep defaultDeactivationRules defaultPollingTiers postsT1 postsT2 :=
    CoreStep.ingest postsT1 pcEx 3 rfl
  exact ⟨Relation.ReflTransGen.tail
      (Relation.ReflTransGen.tail (Relation.ReflTransGen.single s1) s2) s3,
    s3, hlook1, rfl, hlook2, by decide⟩

/-- C9 amended: each core step overwrites the engagement counters with its
incoming values (the polling worker with the fetched API counts, the
re-ingestion upsert with the message counts).  Counters therefore do not
decrease across a step exactly when the incoming values are at least the
stored ones; unconditional monotonicity while active does not hold. -/
theorem counters_overwritten_by_each_step :
    (∀ (rules : DeactivationRules) (tiers : List PollingTier) (r : PostRow)
        (lc rc pc : ℕ) (now : ℚ),
        (pollUpdateRow rules tiers r lc rc pc now).like_count = lc
        ∧ (pollUpdateRow rules tiers r lc rc pc now).repost_count = rc
        ∧ (pollUpdateRow rules tiers r lc rc pc now).reply_count = pc)
    ∧ (∀ (r : PostRow) (p : PostCreate) (now : ℚ),
        (applyConflictUpdate r p now).like_count = p.like_count
        ∧ (applyConflictUpdate r p now).repost_count = p.repost_count
        ∧ (applyConflictUpdate r p now).reply_count = p.reply_count)
    ∧ (∀ (rules : DeactivationRules) (tiers : List PollingTier) (r : PostRow)
        (lc rc pc : ℕ) (now : ℚ),
        r.like_count ≤ lc → r.repost_count ≤ rc → r.reply_count ≤ pc →
        r.like_count ≤ (pollUpdateRow rules tiers r lc rc pc now).like_count
        ∧ r.repost_count ≤ (pollUpdateRow rules tiers r lc rc pc now).repost_count
        ∧ r.reply_count ≤ (pollUpdateRow rules tiers r lc rc pc now).reply_count) := by
  refine ⟨?_, fun r p now => ⟨rfl, rfl, rfl⟩, ?_⟩
  · intro rules tiers r lc rc pc now
    obtain ⟨hl, hrr, hp, -⟩ := pollUpdateRow_counters rules tiers r lc rc pc now
    exact ⟨hl, hrr, hp⟩
  · intro rules tiers r lc rc pc now h1 h2 h3
    obtain ⟨hl, hrr, hp, -⟩ := pollUpdateRow_counters rules tiers r lc rc pc now
    refine ⟨?_, ?_, ?_⟩
    · rw [hl]; exact h1
    · rw [hrr]; exact h2
    · rw [hp]; exact h3

/-- C9 amended witness: a concrete polled row whose fetched counts dominate
the stored ones does not lose counter value. -/
theorem counters_overwritten_by_each_step_witness :
    (newPostRow pcEx 0).like_count
      ≤ (pollUpdateRow defaultDeactivationRules defaultPollingTiers
          (newPostRow pcEx 0) 4 0 0 2).like_count :=
  (counters_overwritten_by_each_step.2.2 defaultDeactivationRules defaultPollingTiers
    (newPostRow pcEx 0) 4 0 0 2 (Nat.zero_le 4) (Nat.le_refl 0) (Nat.le_refl 0)).1

/-- C8 witness: the invariant at a concrete reachable one-post state. -/
theorem reachable_inactive_has_no_poll_time_witness :
    PostsPollingInvariant (upsertPost [] pcEx 0) :=
  (reachable_inactive_has_no_poll_time defaultDeactivationRules defaultPollingTiers
    (upsertPost [] pcEx 0)
    (Relation.ReflTransGen.single (CoreStep.ingest [] pcEx 0 rfl))).1

/-! ## User storage (backend/crud.py `upsert_users_batch`)

A User row restricted to the columns the claim is about (did and handle;
handle is unique in the schema).  A missing python handle is modelled as
the empty string.  The `uuid.uuid4().hex[:8]` suffix used to de-duplicate
placeholder handles inside a batch is modelled by an oracle `ℕ → String`
supplying the successive random draws.  String helpers are written over
character lists so that they evaluate by kernel reduction. -/

structure UserRow where
  did : String
  handle : String
deriving Repr, DecidableEq

structure UserCreate where
  did : String
  handle : String
deriving Repr, DecidableEq

/-- Split on the colon character, as `did.split(':')` does. -/
def splitColon : List Char → List (List Char)
  | [] => [[]]
  | c :: rest =>
      let r := splitColon rest
      if c = ':' then [] :: r
      else
        match r with
        | [] => [[c]]
        | h :: t => (c :: h) :: t

/-- `did.split(':')[-1]`. -/
def didSuffix (did : String) : String :=
  String.mk ((splitColon did.data).getLastD did.data)

/-- `f"unknown.{did.split(':')[-1]}"`. -/
def placeholderHandle (did : String) : String :=
  "unknown." ++ didSuffix did

def listIsPrefixOf : List Char → List Char → Bool
  | [], _ => true
  | _ :: _, [] => false
  | a :: as, b :: bs => a == b && listIsPrefixOf as bs

/-- `handle.startswith("unknown.")`. -/
def startsWithUnknown (h : String) : Bool :=
  listIsPrefixOf "unknown.".data h.data

/-- The first loop of `upsert_users_batch`: de-duplicate the batch by DID,
keeping the latest data for each DID at its first position of appearance
(python dict insertion semantics). -/
def dedupByDid (batch : List UserCreate) : List UserCreate :=
  batch.foldl
    (fun acc u =>
      if acc.any (fun v => v.did == u.did) then
        acc.map (fun v => if v.did == u.did then u else v)
      else acc ++ [u])
    []

/-- The second loop: sanitize missing or `handle.invalid` handles to the
placeholder, and make in-batch duplicate placeholder handles unique with a
random suffix; `seen` accumulates the handles kept so far and `k` counts
the uuid draws. -/
def sanitizeHandles (uuid : ℕ → String) :
    List UserCreate → List String → ℕ → List UserCreate
  | [], _, _ => []
  | u :: rest, seen, k =>
      let h1 := if u.handle = "" ∨ u.handle = "handle.invalid"
        then placeholderHandle u.did else u.handle
      if h1 ∈ seen ∧ startsWithUnknown h1 = true then
        let h2 := placeholderHandle u.did ++ "." ++ uuid k
        { u with handle := h2 } :: sanitizeHandles uuid rest (h2 :: seen) (k + 1)
      else
        { u with handle := h1 } :: sanitizeHandles uuid rest (h1 :: seen) k

/-- The unique constraint on `User.handle`, as enforced by the database at
commit time. -/
def handlesNodup (db : List UserRow) : Bool :=
  decide ((db.map (fun u => u.handle)).Nodup)

/-- One row of the final INSERT .. ON CONFLICT (did) DO UPDATE statement. -/
def upsertUserRow (db : List UserRow) (u : UserCreate) : List UserRow :=
  if db.any (fun v => v.did == u.did) then
    db.map (fun v => if v.did == u.did then { v with handle := u.handle } else v)
  else db ++ [{ did := u.did, handle := u.handle }]

/-- The conflict pre-scan rewrite: an existing user whose handle is among
the non-placeholder batch handles while its DID is not in the batch gets
the placeholder handle. -/
def prescanRewrite (handles_in_batch dids_in_batch : List String) (v : UserRow) : UserRow :=
  if v.handle ∈ handles_in_batch ∧ ¬ v.did ∈ dids_in_batch then
    { v with handle := placeholderHandle v.did }
  else v

/-- A transaction commit: keep the new table if the unique constraint on
handles holds, otherwise roll back to the previous table. -/
def commitGuard (prev next : List UserRow) : List UserRow × Bool :=
  if handlesNodup next then (next, true) else (prev, false)

/-- `upsert_users_batch` from backend/crud.py: de-duplicate and sanitize the
batch, pre-rewrite existing users whose (non-placeholder) handle is claimed
by a different DID in the batch to the placeholder handle and commit that
rewrite in its own transaction, then run the batch upsert keyed on DID.
Each commit aborts (keeping the previous state of its own transaction) if
it would violate the unique constraint on handles; the boolean reports
whether the final upsert committed. -/
def upsert_users_batch (uuid : ℕ → String) (db : List UserRow) (batch : List UserCreate) :
    List UserRow × Bool :=
  let final_users : List UserCreate := sanitizeHandles uuid (dedupByDid batch) [] 0
  let handles_in_batch : List String := (final_users.filter
      (fun u => (u.handle != "") && !(startsWithUnknown u.handle))).map (fun u => u.handle)
  let dids_in_batch : List String := final_users.map (fun u => u.did)
  let c1 := commitGuard db (db.map (prescanRewrite handles_in_batch dids_in_batch))
  if c1.2 = false then (db, false)
  else commitGuard c1.1 (final_users.foldl upsertUserRow c1.1)

/-- C3 counterexample: the pre-scan only considers batch handles that do not
start with `unknown.` (`handles_in_batch` filters them out).  With an
existing user `did:plc:W` holding placeholder-style handle `unknown.W.x`
and a batch user `did:plc:Q` carrying that same handle, the existing user
whose handle appears in the batch under a different DID is NOT rewritten to
its placeholder `unknown.W`; instead the batch upsert aborts on the unique
constraint and the table is left unchanged, so the claimed universal
pre-rewrite does not hold. -/
theorem handle_prescan_skips_placeholder_handles :
    (upsert_users_batch (fun _ => "u0")
        [{ did := "did:plc:W", handle := "unknown.W.x" }]
        [{ did := "did:plc:Q", handle := "unknown.W.x" }]).1
      = [{ did := "did:plc:W", handle := "unknown.W.x" }]
    ∧ (upsert_users_batch (fun _ => "u0")
        [{ did := "did:plc:W", handle := "unknown.W.x" }]
        [{ did := "did:plc:Q", handle := "unknown.W.x" }]).2 = false
    ∧ ∀ u ∈ (upsert_users_batch (fun _ => "u0")
        [{ did := "did:plc:W", handle := "unknown.W.x" }]
        [{ did := "did:plc:Q", handle := "unknown.W.x" }]).1,
        u.handle ≠ placeholderHandle u.did := by
  decide


theorem startsWithUnknown_placeholder (d : String) :
    startsWithUnknown (placeholderHandle d) = true := by
  rw [placeholderHandle, startsWithUnknown, String.data_append]
  generalize (didSuffix d).data = m
  generalize "unknown.".data = l
  induction l with
  | nil => rfl
  | cons a as ih => simp [listIsPrefixOf, ih]

theorem commitGuard_snd_true (prev next : List UserRow)
    (h : (commitGuard prev next).2 = true) :
    (commitGuard prev next).1 = next ∧ handlesNodup next = true := by
  rw [commitGuard] at h ⊢
  by_cases hn : handlesNodup next = true
  · rw [if_pos hn]
    exact ⟨rfl, hn⟩
  · rw [if_neg hn] at h
    simp at h

theorem commitGuard_fst_nodup (prev next : List UserRow) (h : handlesNodup prev = true) :
    (((commitGuard prev next).1).map (fun v => v.handle)).Nodup := by
  rw [commitGuard]
  by_cases hn : handlesNodup next = true
  · rw [if_pos hn]
    exact of_decide_eq_true hn
  · rw [if_neg hn]
    exact of_decide_eq_true h

theorem commitGuard_of_nodup (prev next : List UserRow) (h : handlesNodup next = true) :
    commitGuard prev next = (next, true) := by
  rw [commitGuard, if_pos h]

/-- C3 amended: the pre-upsert rewrite applies to existing users whose
handle is claimed in the batch under a different DID by a NON-placeholder
handle (batch handles starting with `unknown.` are excluded from the
pre-scan).  For such a collision (a batch user with a fresh DID and a
non-placeholder handle owned by an existing user, the placeholder target
being unused), the operation commits, the prior owner is rewritten to
`unknown.<did-suffix>`, exactly one row ends up holding the contested
handle, namely the new DID, and handle uniqueness holds afterwards;
moreover every run of `upsert_users_batch` either yields a table with
unique handles or leaves the table unchanged. -/
theorem handle_collision_resolution_amended (uuid : ℕ → String) (db : List UserRow)
    (u : UserCreate)
    (hdbn : (db.map (fun v => v.did)).Nodup)
    (hdh : (db.map (fun v => v.handle)).Nodup)
    (hh1 : u.handle ≠ "") (hh2 : u.handle ≠ "handle.invalid")
    (hh3 : startsWithUnknown u.handle = false)
    (hnew : ∀ v ∈ db, v.did ≠ u.did)
    (old : UserRow) (hold : old ∈ db) (hcol : old.handle = u.handle)
    (hfresh : ∀ v ∈ db, v.handle ≠ placeholderHandle old.did) :
    (upsert_users_batch uuid db [u]).2 = true
    ∧ (∀ v ∈ (upsert_users_batch uuid db [u]).1,
        v.did = old.did → v.handle = placeholderHandle old.did)
    ∧ ((upsert_users_batch uuid db [u]).1.filter (fun v => v.handle == u.handle)).length = 1
    ∧ (∀ v ∈ (upsert_users_batch uuid db [u]).1, v.handle = u.handle → v.did = u.did)
    ∧ ((upsert_users_batch uuid db [u]).1.map (fun v => v.handle)).Nodup
    ∧ (∀ (db2 : List UserRow) (batch2 : List UserCreate),
        ((upsert_users_batch uuid db2 batch2).1.map (fun v => v.handle)).Nodup
          ∨ (upsert_users_batch uuid db2 batch2).1 = db2) := by
  have hinj_did : ∀ x ∈ db, ∀ y ∈ db, x.did = y.did → x = y := by
    intro x hx y hy h
    exact List.inj_on_of_nodup_map hdbn hx hy h
  have hinj_h : ∀ x ∈ db, ∀ y ∈ db, x.handle = y.handle → x = y := by
    intro x hx y hy h
    exact List.inj_on_of_nodup_map hdh hx hy h
  have hph_ne : placeholderHandle old.did ≠ u.handle := by
    intro h
    rw [← h, startsWithUnknown_placeholder] at hh3
    exact absurd hh3 (by decide)
  have hold_did_ne : old.did ≠ u.did := hnew old hold
  have hdedup : dedupByDid [u] = [u] := by
    simp [dedupByDid]
  have hF : sanitizeHandles uuid (dedupByDid [u]) [] 0 = [u] := by
    rw [hdedup]
    simp only [sanitizeHandles, List.not_mem_nil, false_and, if_false,
      if_neg (not_or.mpr ⟨hh1, hh2⟩)]
  have hpred : ((u.handle != "") && !(startsWithUnknown u.handle)) = true := by
    simp [bne_iff_ne, hh1, hh3]
  have hHB : (([u] : List UserCreate).filter
      (fun w => (w.handle != "") && !(startsWithUnknown w.handle))).map (fun w => w.handle)
      = [u.handle] := by
    rw [List.filter_cons, if_pos hpred, List.filter_nil]
    rfl
  have hp_of_ne : ∀ v ∈ db, v ≠ old →
      prescanRewrite [u.handle] [u.did] v = v := by
    intro v hv hvo
    rw [prescanRewrite, if_neg]
    intro hc
    rcases hc with ⟨hch, -⟩
    simp only [List.mem_singleton] at hch
    exact hvo (hinj_h v hv old hold (hch.trans hcol.symm))
  have hp_old : prescanRewrite [u.handle] [u.did] old
      = { old with handle := placeholderHandle old.did } := by
    rw [prescanRewrite, if_pos ⟨by simp [hcol], by simp [hold_did_ne]⟩]
  have hp_did : ∀ v, (prescanRewrite [u.handle] [u.did] v).did = v.did := by
    intro v
    rw [prescanRewrite]
    by_cases h : v.handle ∈ [u.handle] ∧ ¬ v.did ∈ [u.did]
    · rw [if_pos h]
    · rw [if_neg h]
  have hp_handle_ne : ∀ v ∈ db, (prescanRewrite [u.handle] [u.did] v).handle ≠ u.handle := by
    intro v hv
    by_cases hvo : v = old
    · rw [hvo, hp_old]
      exact hph_ne
    · rw [hp_of_ne v hv hvo]
      intro hch
      exact hvo (hinj_h v hv old hold (hch.trans hcol.symm))
  have hRnodup : ((db.map (prescanRewrite [u.handle] [u.did])).map
      (fun v => v.handle)).Nodup := by
    rw [List.map_map]
    refine (hdh.of_map _).map_on ?_
    intro x hx y hy hxy
    simp only [Function.comp] at hxy
    by_cases hxo : x = old
    · by_cases hyo : y = old
      · rw [hxo, hyo]
      · rw [hxo, hp_old] at hxy
        rw [hp_of_ne y hy hyo] at hxy
        exact absurd hxy.symm (hfresh y hy)
    · by_cases hyo : y = old
      · rw [hyo, hp_old] at hxy
        rw [hp_of_ne x hx hxo] at hxy
        exact absurd hxy (hfresh x hx)
      · rw [hp_of_ne x hx hxo, hp_of_ne y hy hyo] at hxy
        exact hinj_h x hx y hy hxy
  have hguard1 : handlesNodup (db.map (prescanRewrite [u.handle] [u.did])) = true :=
    decide_eq_true hRnodup
  have hanyR : ((db.map (prescanRewrite [u.handle] [u.did])).any
      (fun v => v.did == u.did)) = false := by
    rw [List.any_eq_false]
    intro w hw
    obtain ⟨v, hv, rfl⟩ := List.mem_map.mp hw
    simp only [beq_iff_eq, hp_did]
    exact hnew v hv
  have hupserted : upsertUserRow (db.map (prescanRewrite [u.handle] [u.did])) u
      = db.map (prescanRewrite [u.handle] [u.did])
        ++ [({ did := u.did, handle := u.handle } : UserRow)] := by
    rw [upsertUserRow, if_neg (by simp [hanyR])]
  have hUnodup : (((db.map (prescanRewrite [u.handle] [u.did]))
      ++ [({ did := u.did, handle := u.handle } : UserRow)]).map
      (fun v => v.handle)).Nodup := by
    rw [List.map_append]
    refine hRnodup.append (by simp) ?_
    intro h hmem1 hmem2
    simp only [List.map_cons, List.map_nil, List.mem_singleton] at hmem2
    obtain ⟨v, hv, rfl⟩ := List.mem_map.mp hmem1
    obtain ⟨w, hw, rfl⟩ := List.mem_map.mp hv
    exact hp_handle_ne w hw hmem2
  have hguard2 : handlesNodup ((db.map (prescanRewrite [u.handle] [u.did]))
      ++ [({ did := u.did, handle := u.handle } : UserRow)]) = true :=
    decide_eq_true hUnodup
  have hres : upsert_users_batch uuid db [u]
      = ((db.map (prescanRewrite [u.handle] [u.did]))
          ++ [({ did := u.did, handle := u.handle } : UserRow)], true) := by
    simp only [upsert_users_batch]
    rw [hF, hHB]
    rw [show ([u] : List UserCreate).map (fun w => w.did) = [u.did] from rfl]
    rw [commitGuard_of_nodup _ _ hguard1]
    rw [if_neg (by simp)]
    simp only [List.foldl_cons, List.foldl_nil]
    rw [hupserted]
    exact commitGuard_of_nodup _ _ hguard2
  refine ⟨by rw [hres], ?_, ?_, ?_, ?_, ?_⟩
  · intro v hv hvdid
    rw [hres] at hv
    rcases List.mem_append.mp hv with hv | hv
    · obtain ⟨w, hw, rfl⟩ := List.mem_map.mp hv
      rw [hp_did] at hvdid
      have hwold : w = old := hinj_did w hw old hold hvdid
      rw [hwold, hp_old]
    · simp only [List.mem_singleton] at hv
      rw [hv] at hvdid
      exact absurd hvdid.symm hold_did_ne
  · rw [hres]
    show (((db.map (prescanRewrite [u.handle] [u.did]))
      ++ [({ did := u.did, handle := u.handle } : UserRow)]).filter
        (fun v => v.handle == u.handle)).length = 1
    rw [List.filter_append]
    have h1 : (db.map (prescanRewrite [u.handle] [u.did])).filter
        (fun v => v.handle == u.handle) = [] := by
      rw [List.filter_eq_nil_iff]
      intro w hw
      obtain ⟨v, hv, rfl⟩ := List.mem_map.mp hw
      simp only [beq_iff_eq]
      exact hp_handle_ne v hv
    rw [h1]
    simp
  · intro v hv hvh
    rw [hres] at hv
    rcases List.mem_append.mp hv with hv | hv
    · obtain ⟨w, hw, rfl⟩ := List.mem_map.mp hv
      exact absurd hvh (hp_handle_ne w hw)
    · simp only [List.mem_singleton] at hv
      rw [hv]
  · rw [hres]
    exact hUnodup
  · intro db2 batch2
    simp only [upsert_users_batch]
    split
    · right
      rfl
    · rename_i hsplit
      left
      have hb : (commitGuard db2 (db2.map (prescanRewrite
          (((sanitizeHandles uuid (dedupByDid batch2) [] 0).filter
            (fun w => (w.handle != "") && !(startsWithUnknown w.handle))).map
              (fun w => w.handle))
          ((sanitizeHandles uuid (dedupByDid batch2) [] 0).map (fun w => w.did))))).2
          = true := by
        simpa using hsplit
      obtain ⟨he, hn⟩ := commitGuard_snd_true _ _ hb
      rw [he]
      exact commitGuard_fst_nodup _ _ hn

/-- C3 amended witness: `did:plc:bob` claims `alice.example`; the previous
owner `did:plc:alice` is rewritten to `unknown.alice` and the upsert
commits. -/
theorem handle_collision_resolution_amended_witness :
    (upsert_users_batch (fun _ => "x")
        [{ did := "did:plc:alice", handle := "alice.example" }]
        [{ did := "did:plc:bob", handle := "alice.example" }]).2 = true
    ∧ (upsert_users_batch (fun _ => "x")
        [{ did := "did:plc:alice", handle := "alice.example" }]
        [{ did := "did:plc:bob", handle := "alice.example" }]).1
      = [{ did := "did:plc:alice", handle := "unknown.alice" },
         { did := "did:plc:bob", handle := "alice.example" }] :=
  ⟨(handle_collision_resolution_amended (fun _ => "x")
      [{ did := "did:plc:alice", handle := "alice.example" }]
      { did := "did:plc:bob", handle := "alice.example" }
      (by decide) (by decide) (by decide) (by decide) (by decide) (by decide)
      { did := "did:plc:alice", handle := "alice.example" }
      (by decide) (by decide) (by decide)).1,
   by decide⟩

/-! ## Stats worker (backend/stats_worker.py, `update_all_user_stats`)

The stats query joins Post with FeedPost and groups by
`(author_did, feed_id)` with COUNT/SUM/MIN/MAX aggregates.  A row of the
join is modelled as a `StatsEntry`; the SQL aggregation of a group is the
fold of `mergeStats` over the per-row `entryStats`.  UserStats is modelled
pointwise as a map from `(user_did, feed_id)` to an optional row, and the
two ON CONFLICT branches of the upsert are translated set-clause by
set-clause. -/

structure StatsEntry where
  author_did : String
  feed_id : String
  created_at : ℤ
  like_count : ℕ
  repost_count : ℕ
  reply_count : ℕ
  quote_count : ℕ
  has_image : Bool
  has_video : Bool
deriving Repr, DecidableEq

structure UserStatsRow where
  post_count : ℕ
  total_likes_received : ℕ
  total_reposts_received : ℕ
  total_replies_received : ℕ
  total_quotes_received : ℕ
  image_post_count : ℕ
  video_post_count : ℕ
  max_post_engagement : ℕ
  first_post_at : ℤ
  latest_post_at : ℤ
deriving Repr, DecidableEq

/-- The aggregates contributed by a single joined row: COUNT 1, the
counter values, `has_image`/`has_video` cast to integers, a
`max_post_engagement` candidate `like_count + repost_count`, and the
creation time as both MIN and MAX candidate. -/
def entryStats (e : StatsEntry) : UserStatsRow :=
  { post_count := 1
    total_likes_received := e.like_count
    total_reposts_received := e.repost_count
    total_replies_received := e.reply_count
    total_quotes_received := e.quote_count
    image_post_count := if e.has_image then 1 else 0
    video_post_count := if e.has_video then 1 else 0
    max_post_engagement := e.like_count + e.repost_count
    first_post_at := e.created_at
    latest_post_at := e.created_at }

/-- Combining two partial SQL aggregates: SUM adds, MAX takes the larger,
MIN the smaller. -/
def mergeStats (a b : UserStatsRow) : UserStatsRow :=
  { post_count := a.post_count + b.post_count
    total_likes_received := a.total_likes_received + b.total_likes_received
    total_reposts_received := a.total_reposts_received + b.total_reposts_received
    total_replies_received := a.total_replies_received + b.total_replies_received
    total_quotes_received := a.total_quotes_received + b.total_quotes_received
    image_post_count := a.image_post_count + b.image_post_count
    video_post_count := a.video_post_count + b.video_post_count
    max_post_engagement := max a.max_post_engagement b.max_post_engagement
    first_post_at := min a.first_post_at b.first_post_at
    latest_post_at := max a.latest_post_at b.latest_post_at }

def oMerge : Option UserStatsRow → Option UserStatsRow → Option UserStatsRow
  | none, b => b
  | some a, none => some a
  | some a, some b => some (mergeStats a b)

/-- The SQL aggregate of a list of joined rows ( `none` for an empty
group, which produces no result row). -/
def aggStats (l : List StatsEntry) : Option UserStatsRow :=
  l.foldr (fun e acc => oMerge (some (entryStats e)) acc) none

/-- The grouped stats query restricted to one key. -/
def groupAgg (entries : List StatsEntry) (k : String × String) : Option UserStatsRow :=
  aggStats (entries.filter (fun e => e.author_did == k.1 && e.feed_id == k.2))

/-- The UserStats table, pointwise. -/
def StatsDB : Type := String × String → Option UserStatsRow

/-- `update_all_user_stats(db, since=None)`: full rebuild.  Groups over all
posts; a fresh key inserts the computed row, an existing key is overwritten
by the REPLACE set clause, which lists every column except
`first_post_at`. -/
def update_all_user_stats_full (stats : StatsDB) (entries : List StatsEntry) : StatsDB :=
  fun k =>
    match groupAgg entries k, stats k with
    | none, old => old
    | some g, none => some g
    | some g, some old => some { g with first_post_at := old.first_post_at }

/-- `update_all_user_stats(db, since)`: incremental update.  Restricts to
posts with `created_at > since`; a fresh key inserts the computed row, an
existing key is merged by the SUM/MAX set clause (counters add,
`max_post_engagement` via GREATEST, `latest_post_at` from the excluded row,
`first_post_at` untouched). -/
def update_all_user_stats_incremental (stats : StatsDB) (since : ℤ)
    (entries : List StatsEntry) : StatsDB :=
  fun k =>
    match groupAgg (entries.filter (fun e => decide (since < e.created_at))) k, stats k with
    | none, old => old
    | some g, none => some g
    | some g, some old => some
        { post_count := old.post_count + g.post_count
          total_likes_received := old.total_likes_received + g.total_likes_received
          total_reposts_received := old.total_reposts_received + g.total_reposts_received
          total_replies_received := old.total_replies_received + g.total_replies_received
          total_quotes_received := old.total_quotes_received + g.total_quotes_received
          image_post_count := old.image_post_count + g.image_post_count
          video_post_count := old.video_post_count + g.video_post_count
          max_post_engagement := max old.max_post_engagement g.max_post_engagement
          first_post_at := old.first_post_at
          latest_post_at := g.latest_post_at }

theorem mergeStats_comm (a b : UserStatsRow) : mergeStats a b = mergeStats b a := by
  cases a
  cases b
  simp [mergeStats, Nat.add_comm, max_comm, min_comm]

theorem mergeStats_assoc (a b c : UserStatsRow) :
    mergeStats (mergeStats a b) c = mergeStats a (mergeStats b c) := by
  cases a
  cases b
  cases c
  simp [mergeStats, Nat.add_assoc, max_assoc, min_assoc]

theorem oMerge_assoc (a b c : Option UserStatsRow) :
    oMerge (oMerge a b) c = oMerge a (oMerge b c) := by
  cases a <;> cases b <;> cases c <;> simp [oMerge, mergeStats_assoc]

theorem oMerge_comm (a b : Option UserStatsRow) : oMerge a b = oMerge b a := by
  cases a <;> cases b <;> simp [oMerge, mergeStats_comm]

theorem aggStats_cons (e : StatsEntry) (t : List StatsEntry) :
    aggStats (e :: t) = oMerge (some (entryStats e)) (aggStats t) := rfl

theorem aggStats_eq_none_iff (l : List StatsEntry) : aggStats l = none ↔ l = [] := by
  cases l with
  | nil => simp [aggStats]
  | cons e t =>
      rw [aggStats_cons]
      cases h : aggStats t <;> simp [oMerge]

theorem aggStats_filter_partition (l : List StatsEntry) (p : StatsEntry → Bool) :
    oMerge (aggStats (l.filter p)) (aggStats (l.filter (fun e => !(p e)))) = aggStats l := by
  induction l with
  | nil => rfl
  | cons e t ih =>
      rw [List.filter_cons, List.filter_cons]
      by_cases hp : p e = true
      · rw [if_pos (by simp [hp]), if_neg (by simp [hp])]
        rw [aggStats_cons, aggStats_cons, oMerge_assoc, ih]
      · rw [if_neg (by simpa using hp), if_pos (by simpa using hp)]
        rw [aggStats_cons, aggStats_cons, ← oMerge_assoc,
          oMerge_comm (aggStats (t.filter p)) (some (entryStats e)), oMerge_assoc, ih]

theorem aggStats_created_le (since : ℤ) (l : List StatsEntry)
    (h : ∀ e ∈ l, e.created_at ≤ since) :
    ∀ s, aggStats l = some s → s.first_post_at ≤ since ∧ s.latest_post_at ≤ since := by
  induction l with
  | nil => intro s hs; cases hs
  | cons e t ih =>
      intro s hs
      rw [aggStats_cons] at hs
      have he : e.created_at ≤ since := h e (by simp)
      cases ht : aggStats t with
      | none =>
          rw [ht] at hs
          cases hs
          exact ⟨he, he⟩
      | some s2 =>
          rw [ht] at hs
          cases hs
          have h2 := ih (fun x hx => h x (by simp [hx])) s2 ht
          constructor
          · exact min_le_of_left_le he
          · exact max_le he h2.2

theorem aggStats_created_gt (since : ℤ) (l : List StatsEntry)
    (h : ∀ e ∈ l, since < e.created_at) :
    ∀ s, aggStats l = some s → since < s.first_post_at ∧ since < s.latest_post_at := by
  induction l with
  | nil => intro s hs; cases hs
  | cons e t ih =>
      intro s hs
      rw [aggStats_cons] at hs
      have he : since < e.created_at := h e (by simp)
      cases ht : aggStats t with
      | none =>
          rw [ht] at hs
          cases hs
          exact ⟨he, he⟩
      | some s2 =>
          rw [ht] at hs
          cases hs
          have h2 := ih (fun x hx => h x (by simp [hx])) s2 ht
          constructor
          · exact lt_min he h2.1
          · exact lt_max_of_lt_left he

/-- Concrete starting state for the C4 counterexample: the stored stats row
for ("a","f") disagrees with the posts table. -/
def statsJunkRow : UserStatsRow :=
  { post_count := 99, total_likes_received := 0, total_reposts_received := 0,
    total_replies_received := 0, total_quotes_received := 0, image_post_count := 0,
    video_post_count := 0, max_post_engagement := 0, first_post_at := 5,
    latest_post_at := 5 }

def statsStart : StatsDB :=
  fun k => if k = ("a", "f") then some statsJunkRow else none

def statsEntriesEx : List StatsEntry :=
  [{ author_did := "a", feed_id := "f", created_at := 5, like_count := 0,
     repost_count := 0, reply_count := 0, quote_count := 0,
     has_image := false, has_video := false }]

/-- C4 counterexample: from a starting state whose stored UserStats row
does not equal the aggregation of the stored posts (post_count 99 versus a
single post, all created at or before the high-water mark 10), the full
rebuild replaces the row (post_count 1) while the incremental path sees no
post with `created_at > 10` and leaves it untouched (post_count 99), so the
two paths do not agree for every starting database state. -/
theorem stats_full_ne_incremental :
    update_all_user_stats_full statsStart statsEntriesEx ("a", "f")
      ≠ update_all_user_stats_incremental statsStart 10 statsEntriesEx ("a", "f") := by
  decide

/-- C4 amended: from a starting state in which every UserStats row equals
the SQL aggregation of the joined posts with `created_at` at or before the
high-water mark (the state the incremental path maintains), running the
full rebuild and running the incremental update over the same posts yield
identical UserStats rows for every (user_did, feed_id): post_count, the
received-counter sums, image/video counts, max_post_engagement,
first_post_at and latest_post_at all agree. -/
theorem stats_full_eq_incremental_from_consistent (stats : StatsDB) (since : ℤ)
    (entries : List StatsEntry)
    (hcons : ∀ k, stats k
      = groupAgg (entries.filter (fun e => decide (e.created_at ≤ since))) k) :
    ∀ k, update_all_user_stats_full stats entries k
      = update_all_user_stats_incremental stats since entries k := by
  intro k
  have hq : ∀ q : StatsEntry → Bool,
      groupAgg (entries.filter q) k
        = aggStats ((entries.filter
            (fun e => e.author_did == k.1 && e.feed_id == k.2)).filter q) := by
    intro q
    rw [groupAgg, List.filter_filter, List.filter_filter]
    exact congrArg aggStats (List.filter_congr (fun a _ => Bool.and_comm _ _))
  set es : List StatsEntry :=
    entries.filter (fun e => e.author_did == k.1 && e.feed_id == k.2) with hes
  have hold : stats k = aggStats (es.filter (fun e => decide (e.created_at ≤ since))) := by
    rw [hcons k, hq]
  have hfull : groupAgg entries k = aggStats es := by
    rw [groupAgg, ← hes]
  have hnew : groupAgg (entries.filter (fun e => decide (since < e.created_at))) k
      = aggStats (es.filter (fun e => decide (since < e.created_at))) := hq _
  have hdec : ∀ e : StatsEntry,
      (decide (since < e.created_at)) = !decide (e.created_at ≤ since) := by
    intro e
    rw [← decide_not]
    exact decide_eq_decide.mpr not_le.symm
  have hpart : oMerge (aggStats (es.filter (fun e => decide (e.created_at ≤ since))))
      (aggStats (es.filter (fun e => decide (since < e.created_at)))) = aggStats es := by
    rw [show es.filter (fun e => decide (since < e.created_at))
        = es.filter (fun e => !(decide (e.created_at ≤ since)))
      from List.filter_congr (fun e _ => hdec e)]
    exact aggStats_filter_partition es _
  simp only [update_all_user_stats_full, update_all_user_stats_incremental]
  rw [hfull, hnew, hold]
  cases hN : aggStats (es.filter (fun e => decide (since < e.created_at))) with
  | none =>
      have hnil : es.filter (fun e => decide (since < e.created_at)) = [] :=
        (aggStats_eq_none_iff _).mp hN
      have hall : ∀ e ∈ es, e.created_at ≤ since := by
        intro e he
        have := List.filter_eq_nil_iff.mp hnil e he
        simpa using this
      have hself : es.filter (fun e => decide (e.created_at ≤ since)) = es :=
        List.filter_eq_self.mpr (fun e he => by simpa using hall e he)
      rw [hself]
      cases hes2 : aggStats es with
      | none => rfl
      | some g => rfl
  | some gn =>
      have hgn : since < gn.first_post_at ∧ since < gn.latest_post_at := by
        refine aggStats_created_gt since _ ?_ gn hN
        intro e he
        have := (List.mem_filter.mp he).2
        simpa using this
      cases hO : aggStats (es.filter (fun e => decide (e.created_at ≤ since))) with
      | none =>
          have hnil : es.filter (fun e => decide (e.created_at ≤ since)) = [] :=
            (aggStats_eq_none_iff _).mp hO
          have hallgt : ∀ e ∈ es, since < e.created_at := by
            intro e he
            have := List.filter_eq_nil_iff.mp hnil e he
            simp only [decide_eq_true_eq] at this
            exact lt_of_not_le this
          have hself : es.filter (fun e => decide (since < e.created_at)) = es :=
            List.filter_eq_self.mpr (fun e he => by simpa using hallgt e he)
          rw [hself] at hN
          rw [hN]
      | some go =>
          have hgo : go.first_post_at ≤ since ∧ go.latest_post_at ≤ since := by
            refine aggStats_created_le since _ ?_ go hO
            intro e he
            have := (List.mem_filter.mp he).2
            simpa using this
          have heq : aggStats es = some (mergeStats go gn) := by
            rw [← hpart, hO, hN]
            rfl
          rw [heq]
          have hlat : max go.latest_post_at gn.latest_post_at = gn.latest_post_at :=
            max_eq_right (le_trans hgo.2 (le_of_lt hgn.2))
          simp only [Option.some.injEq]
          cases go
          cases gn
          simp only [mergeStats] at hlat ⊢
          simp [hlat]

/-- C4 witness: a consistent start state (one post at time 1 aggregated
into the stats, one new post at time 20 beyond the high-water mark 10);
both paths produce the same row. -/
def statsEntriesW : List StatsEntry :=
  [{ author_did := "a", feed_id := "f", created_at := 1, like_count := 2,
     repost_count := 1, reply_count := 0, quote_count := 0,
     has_image := true, has_video := false },
   { author_did := "a", feed_id := "f", created_at := 20, like_count := 4,
     repost_count := 0, reply_count := 1, quote_count := 0,
     has_image := false, has_video := true }]

def statsStartW : StatsDB :=
  fun k => groupAgg (statsEntriesW.filter (fun e => decide (e.created_at ≤ (10 : ℤ)))) k

theorem stats_full_eq_incremental_from_consistent_witness :
    update_all_user_stats_full statsStartW statsEntriesW ("a", "f")
      = update_all_user_stats_incremental statsStartW 10 statsEntriesW ("a", "f")
    ∧ update_all_user_stats_full statsStartW statsEntriesW ("a", "f")
      = some { post_count := 2, total_likes_received := 6, total_reposts_received := 1,
               total_replies_received := 1, total_quotes_received := 0,
               image_post_count := 1, video_post_count := 1, max_post_engagement := 4,
               first_post_at := 1, latest_post_at := 20 } :=
  ⟨stats_full_eq_incremental_from_consistent statsStartW 10 statsEntriesW
      (fun _ => rfl) ("a", "f"),
   by decide⟩

/-! ## Top users (backend/aggregations/user_aggregates.py, `calculate_top_users`)

The SQL part of the function returns one row per (post, user) with the
weighted `post_score`; scores are modelled as rationals.  The python part
groups scores per user (dict insertion order), computes the drop-lowest
weighted score with `ln_bonus = math.log(original_count + 1)` — the
transcendental `math.log` is modelled by an abstract function
`lnb : ℕ → ℚ` with `lnb n` standing for `log(n + 1)`, nonnegative on the
relevant inputs — sorts by score descending and keeps the top 50. -/

def groupScores (rows : List (String × ℚ)) : List (String × List ℚ) :=
  rows.foldl
    (fun acc r =>
      if acc.any (fun p => p.1 == r.1) then
        acc.map (fun p => if p.1 == r.1 then (p.1, p.2 ++ [r.2]) else p)
      else acc ++ [(r.1, [r.2])])
    []

/-- `min(scores)` on a nonempty python list. -/
def minScore : List ℚ → ℚ
  | [] => 0
  | h :: t => t.foldl min h

/-- `scores_without_lowest.remove(min(scores_without_lowest))`: remove the
first occurrence of the minimum. -/
def removeMin (scores : List ℚ) : List ℚ :=
  scores.erase (minScore scores)

/-- `sum(scores) / len(scores) if scores else 0`. -/
def all_posts_avg (scores : List ℚ) : ℚ :=
  if scores.isEmpty then 0 else scores.sum / scores.length

/-- The per-user score of `calculate_top_users`: with more than one post,
the larger of (average of all scores) · ln_bonus and (average without the
lowest score) · ln_bonus; otherwise the full average times ln_bonus. -/
def weighted_score (lnb : ℕ → ℚ) (scores : List ℚ) : ℚ :=
  let ln_bonus := lnb scores.length
  let all_posts_score := all_posts_avg scores * ln_bonus
  if 1 < scores.length then
    let scores_without_lowest := removeMin scores
    let without_lowest_avg := scores_without_lowest.sum / scores_without_lowest.length
    let without_lowest_score := without_lowest_avg * ln_bonus
    max all_posts_score without_lowest_score
  else all_posts_score

/-- The formula as the spec words it:
`max(avg(all_scores), avg(scores_minus_min)) · ln(post_count + 1)`, with
the single-post score being the post score times ln 2. -/
def spec_weighted_score (lnb : ℕ → ℚ) (scores : List ℚ) : ℚ :=
  if 1 < scores.length then
    max (all_posts_avg scores) ((removeMin scores).sum / (removeMin scores).length)
      * lnb scores.length
  else all_posts_avg scores * lnb scores.length

def scoredUsers (lnb : ℕ → ℚ) (rows : List (String × ℚ)) : List (String × ℚ) :=
  (groupScores rows).map (fun p => (p.1, weighted_score lnb p.2))

/-- Sort key: weighted score descending (`sort(key=..., reverse=True)`). -/
def byScoreDesc : (String × ℚ) → (String × ℚ) → Prop := fun a b => b.2 ≤ a.2

instance : DecidableRel byScoreDesc :=
  fun a b => inferInstanceAs (Decidable (b.2 ≤ a.2))

instance : IsTotal (String × ℚ) byScoreDesc := ⟨fun a b => le_total b.2 a.2⟩

instance : IsTrans (String × ℚ) byScoreDesc := ⟨fun _ _ _ hab hbc => le_trans hbc hab⟩

/-- `calculate_top_users`: score each user, sort by weighted score
descending, return the first 50. -/
def calculate_top_users (lnb : ℕ → ℚ) (rows : List (String × ℚ)) : List (String × ℚ) :=
  ((scoredUsers lnb rows).insertionSort byScoreDesc).take 50

/-- C5: with `lnb` standing for `math.log(n+1)` (nonnegative), every
user's code-computed score equals the spec formula
`max(avg(all), avg(minus_min)) · ln(n+1)` (times-distributes over the max
since the log factor is nonnegative), a single post scores
`score · ln 2`, and the returned list is sorted by weighted score
descending, has length `min 50 (number of users)`, and together with the
dropped tail is a permutation of all scored users, every dropped user
scoring no more than every returned one. -/
theorem calculate_top_users_matches_spec (lnb : ℕ → ℚ) (rows : List (String × ℚ))
    (hlnb : ∀ n, 0 ≤ lnb n) :
    (∀ scores : List ℚ, weighted_score lnb scores = spec_weighted_score lnb scores)
    ∧ (∀ s : ℚ, weighted_score lnb [s] = s * lnb 1)
    ∧ List.Sorted byScoreDesc (calculate_top_users lnb rows)
    ∧ (calculate_top_users lnb rows).length = min 50 (scoredUsers lnb rows).length
    ∧ (calculate_top_users lnb rows
        ++ ((scoredUsers lnb rows).insertionSort byScoreDesc).drop 50).Perm
        (scoredUsers lnb rows)
    ∧ (∀ p ∈ calculate_top_users lnb rows,
        ∀ q ∈ ((scoredUsers lnb rows).insertionSort byScoreDesc).drop 50,
        q.2 ≤ p.2) := by
  refine ⟨?_, ?_, ?_, ?_, ?_, ?_⟩
  · intro scores
    simp only [weighted_score, spec_weighted_score]
    by_cases h : 1 < scores.length
    · rw [if_pos h, if_pos h, max_mul_of_nonneg _ _ (hlnb scores.length)]
    · rw [if_neg h, if_neg h]
  · intro s
    simp only [weighted_score, all_posts_avg]
    norm_num
  · exact (List.sorted_insertionSort byScoreDesc _).sublist (List.take_sublist _ _)
  · rw [calculate_top_users, List.length_take,
      (List.perm_insertionSort byScoreDesc _).length_eq]
  · rw [calculate_top_users, List.take_append_drop]
    exact List.perm_insertionSort byScoreDesc _
  · intro p hp q hq
    have hs := List.sorted_insertionSort byScoreDesc (scoredUsers lnb rows)
    rw [← List.take_append_drop 50
      ((scoredUsers lnb rows).insertionSort byScoreDesc)] at hs
    exact (List.pairwise_append.mp hs).2.2 p hp q hq

/-- C5 witness: two users; user a has scores 1 and 5 (drop-lowest average
5, ln bonus stand-in 2), user b one score 2. -/
theorem calculate_top_users_matches_spec_witness :
    List.Sorted byScoreDesc
      (calculate_top_users (fun n => (n : ℚ)) [("a", 1), ("a", 5), ("b", 2)])
    ∧ weighted_score (fun n => (n : ℚ)) [5] = 5 * 1
    ∧ weighted_score (fun n => (n : ℚ)) [1, 5] = 10 :=
  ⟨(calculate_top_users_matches_spec (fun n => (n : ℚ)) [("a", 1), ("a", 5), ("b", 2)]
      (fun n => Nat.cast_nonneg n)).2.2.1,
   by
    have := (calculate_top_users_matches_spec (fun n => (n : ℚ)) []
      (fun n => Nat.cast_nonneg n)).2.1 5
    simpa using this,
   by norm_num [weighted_score, all_posts_avg, removeMin, minScore, List.erase]⟩

/-! ## Geo aggregates (backend/aggregations/geo_aggregates.py)

`_get_location_from_hashtags` walks the hashtags of one post, looking each
normalized tag up in the geo map, tracking the most specific inferred
location and the set of distinct cities seen; a post inferring more than
one distinct city is dropped.  `calculate_top_cities` / `_regions` /
`_countries` count each post once at the respective level of its inferred
location. -/

structure GeoEntry where
  city : Option String
  region : Option String
  country : Option String
deriving Repr, DecidableEq

/-- Tag normalization: lowercase, then keep only ascii letters and
digits (`re.sub(r'[^a-z0-9]', '', tag.lower())`). -/
def normalize_tag (tag : String) : String :=
  String.mk ((tag.data.map Char.toLower).filter
    (fun c => (decide (97 ≤ c.toNat) && decide (c.toNat ≤ 122))
      || (decide (48 ≤ c.toNat) && decide (c.toNat ≤ 57))))

/-- `LOCATION_HASHTAG_MAP.get(normalized_tag)`. -/
def geoLookup (m : List (String × GeoEntry)) (tag : String) : Option GeoEntry :=
  (m.find? (fun p => p.1 == normalize_tag tag)).map (fun p => p.2)

def tagCity (m : List (String × GeoEntry)) (t : String) : Option String :=
  (geoLookup m t).bind (fun l => l.city)

def tagRegion (m : List (String × GeoEntry)) (t : String) : Option String :=
  (geoLookup m t).bind (fun l => l.region)

def tagCountry (m : List (String × GeoEntry)) (t : String) : Option String :=
  (geoLookup m t).bind (fun l => l.country)

/-- The loop state: the inferred city/region/country so far and the set of
distinct cities seen in this post. -/
structure GeoState where
  inferred_city : Option String
  inferred_region : Option String
  inferred_country : Option String
  distinct_cities : List String
deriving Repr, DecidableEq

/-- `distinct_cities_found_in_post.add(current_tag_city)`. -/
def addCity (cities : List String) (c : Option String) : List String :=
  match c with
  | none => cities
  | some city => if city ∈ cities then cities else cities ++ [city]

/-- One iteration of the hashtag loop. -/
def stepTag (m : List (String × GeoEntry)) (st : GeoState) (tag : String) : GeoState :=
  match geoLookup m tag with
  | none => st
  | some loc =>
      let cities := addCity st.distinct_cities loc.city
      if loc.city.isSome ∧ st.inferred_city = none then
        { inferred_city := loc.city
          inferred_region := loc.region
          inferred_country := loc.country
          distinct_cities := cities }
      else if st.inferred_city = none ∧ loc.region.isSome ∧ st.inferred_region = none then
        { st with
          inferred_region := loc.region
          inferred_country := loc.country
          distinct_cities := cities }
      else if st.inferred_city = none ∧ st.inferred_region = none
          ∧ loc.country.isSome ∧ st.inferred_country = none then
        { st with
          inferred_country := loc.country
          distinct_cities := cities }
      else { st with distinct_cities := cities }

def geoInit : GeoState :=
  { inferred_city := none
    inferred_region := none
    inferred_country := none
    distinct_cities := [] }

def inferState (m : List (String × GeoEntry)) (hashtags : List String) : GeoState :=
  hashtags.foldl (stepTag m) geoInit

def distinctCities (m : List (String × GeoEntry)) (hashtags : List String) : List String :=
  (inferState m hashtags).distinct_cities

/-- `_get_location_from_hashtags`. -/
def get_location_from_hashtags (m : List (String × GeoEntry)) (hashtags : List String) :
    Option GeoEntry :=
  if hashtags.isEmpty then none
  else if 1 < (inferState m hashtags).distinct_cities.length then none
  else if (inferState m hashtags).inferred_city.isSome
      ∨ (inferState m hashtags).inferred_region.isSome
      ∨ (inferState m hashtags).inferred_country.isSome then
    some { city := (inferState m hashtags).inferred_city
           region := (inferState m hashtags).inferred_region
           country := (inferState m hashtags).inferred_country }
  else none

def cityOfPost (m : List (String × GeoEntry)) (h : List String) : Option String :=
  (get_location_from_hashtags m h).bind (fun l => l.city)

def regionOfPost (m : List (String × GeoEntry)) (h : List String) : Option String :=
  (get_location_from_hashtags m h).bind (fun l => l.region)

def countryOfPost (m : List (String × GeoEntry)) (h : List String) : Option String :=
  (get_location_from_hashtags m h).bind (fun l => l.country)

/-- The per-level counters of `calculate_top_cities` / `_regions` /
`_countries`, pointwise at one key. -/
def countCity (m : List (String × GeoEntry)) (posts : List (List String)) (c : String) : ℕ :=
  (posts.filter (fun h => cityOfPost m h == some c)).length

def countRegion (m : List (String × GeoEntry)) (posts : List (List String)) (c : String) : ℕ :=
  (posts.filter (fun h => regionOfPost m h == some c)).length

def countCountry (m : List (String × GeoEntry)) (posts : List (List String)) (c : String) : ℕ :=
  (posts.filter (fun h => countryOfPost m h == some c)).length

theorem stepTag_city_of_none (m : List (String × GeoEntry)) (st : GeoState) (t : String)
    (h : tagCity m t = none) : (stepTag m st t).inferred_city = st.inferred_city := by
  cases hl : geoLookup m t with
  | none => simp [stepTag, hl]
  | some loc =>
      have hc : loc.city = none := by rwa [tagCity, hl, Option.some_bind] at h
      simp only [stepTag, hl]
      split
      · rename_i hbr
        rw [hc] at hbr
        simp at hbr
      · split
        · rfl
        · split
          · rfl
          · rfl

theorem stepTag_city_isSome_of_tag (m : List (String × GeoEntry)) (st : GeoState) (t : String)
    (h : (tagCity m t).isSome = true) : ((stepTag m st t).inferred_city).isSome = true := by
  cases hl : geoLookup m t with
  | none =>
      rw [tagCity, hl] at h
      simp at h
  | some loc =>
      have hc : (loc.city).isSome = true := by rwa [tagCity, hl, Option.some_bind] at h
      simp only [stepTag, hl]
      split
      · exact hc
      · rename_i hbr
        have hne : ¬ st.inferred_city = none := fun h0 => hbr ⟨hc, h0⟩
        have hs := Option.ne_none_iff_isSome.mp hne
        split
        · exact hs
        · split
          · exact hs
          · exact hs

theorem stepTag_city_isSome (m : List (String × GeoEntry)) (st : GeoState) (t : String)
    (h : (st.inferred_city).isSome = true) : ((stepTag m st t).inferred_city).isSome = true := by
  cases ht : tagCity m t with
  | none => rw [stepTag_city_of_none m st t ht]; exact h
  | some c => exact stepTag_city_isSome_of_tag m st t (by rw [ht]; rfl)

theorem stepTag_region_of_none (m : List (String × GeoEntry)) (st : GeoState) (t : String)
    (hc : tagCity m t = none) (hr : tagRegion m t = none) :
    (stepTag m st t).inferred_region = st.inferred_region := by
  cases hl : geoLookup m t with
  | none => simp [stepTag, hl]
  | some loc =>
      have hc2 : loc.city = none := by rwa [tagCity, hl, Option.some_bind] at hc
      have hr2 : loc.region = none := by rwa [tagRegion, hl, Option.some_bind] at hr
      simp only [stepTag, hl]
      split
      · rename_i hbr
        rw [hc2] at hbr
        simp at hbr
      · split
        · rename_i hbr
          rw [hr2] at hbr
          simp at hbr
        · split
          · rfl
          · rfl

theorem stepTag_region_isSome (m : List (String × GeoEntry)) (st : GeoState) (t : String)
    (hc : tagCity m t = none) (h : (st.inferred_region).isSome = true) :
    ((stepTag m st t).inferred_region).isSome = true := by
  cases hl : geoLookup m t with
  | none => simpa [stepTag, hl] using h
  | some loc =>
      have hc2 : loc.city = none := by rwa [tagCity, hl, Option.some_bind] at hc
      simp only [stepTag, hl]
      split
      · rename_i hbr
        rw [hc2] at hbr
        simp at hbr
      · split
        · rename_i hbr
          rw [hbr.2.2] at h
          simp at h
        · split
          · exact h
          · exact h

theorem stepTag_region_isSome_of_tag (m : List (String × GeoEntry)) (st : GeoState) (t : String)
    (hc : tagCity m t = none) (hcity : st.inferred_city = none)
    (h : (tagRegion m t).isSome = true) :
    ((stepTag m st t).inferred_region).isSome = true := by
  cases hl : geoLookup m t with
  | none =>
      rw [tagRegion, hl] at h
      simp at h
  | some loc =>
      have hc2 : loc.city = none := by rwa [tagCity, hl, Option.some_bind] at hc
      have hr2 : (loc.region).isSome = true := by rwa [tagRegion, hl, Option.some_bind] at h
      simp only [stepTag, hl]
      split
      · rename_i hbr
        rw [hc2] at hbr
        simp at hbr
      · split
        · exact hr2
        · rename_i hbr1 hbr2
          have hne : ¬ st.inferred_region = none := fun h0 => hbr2 ⟨hcity, hr2, h0⟩
          have hs := Option.ne_none_iff_isSome.mp hne
          split
          · exact hs
          · exact hs

theorem stepTag_country_isSome (m : List (String × GeoEntry)) (st : GeoState) (t : String)
    (hc : tagCity m t = none) (hr : tagRegion m t = none)
    (h : (st.inferred_country).isSome = true) :
    ((stepTag m st t).inferred_country).isSome = true := by
  cases hl : geoLookup m t with
  | none => simpa [stepTag, hl] using h
  | some loc =>
      have hc2 : loc.city = none := by rwa [tagCity, hl, Option.some_bind] at hc
      have hr2 : loc.region = none := by rwa [tagRegion, hl, Option.some_bind] at hr
      simp only [stepTag, hl]
      split
      · rename_i hbr
        rw [hc2] at hbr
        simp at hbr
      · split
        · rename_i hbr
          rw [hr2] at hbr
          simp at hbr
        · split
          · rename_i hbr
            rw [hbr.2.2.2] at h
            simp at h
          · exact h

theorem stepTag_country_isSome_of_tag (m : List (String × GeoEntry)) (st : GeoState)
    (t : String) (hc : tagCity m t = none) (hr : tagRegion m t = none)
    (hcity : st.inferred_city = none) (hregion : st.inferred_region = none)
    (h : (tagCountry m t).isSome = true) :
    ((stepTag m st t).inferred_country).isSome = true := by
  cases hl : geoLookup m t with
  | none =>
      rw [tagCountry, hl] at h
      simp at h
  | some loc =>
      have hc2 : loc.city = none := by rwa [tagCity, hl, Option.some_bind] at hc
      have hr2 : loc.region = none := by rwa [tagRegion, hl, Option.some_bind] at hr
      have hk2 : (loc.country).isSome = true := by rwa [tagCountry, hl, Option.some_bind] at h
      simp only [stepTag, hl]
      split
      · rename_i hbr
        rw [hc2] at hbr
        simp at hbr
      · split
        · rename_i hbr
          rw [hr2] at hbr
          simp at hbr
        · split
          · exact hk2
          · rename_i hbr1 hbr2 hbr3
            have hne : ¬ st.inferred_country = none := fun h0 =>
              hbr3 ⟨hcity, hregion, hk2, h0⟩
            exact Option.ne_none_iff_isSome.mp hne

theorem foldl_city_of_none (m : List (String × GeoEntry)) (l : List String) :
    ∀ st : GeoState, (∀ t ∈ l, tagCity m t = none) →
    (l.foldl (stepTag m) st).inferred_city = st.inferred_city := by
  induction l with
  | nil => intro st _; rfl
  | cons t ts ih =>
      intro st h
      rw [List.foldl_cons, ih (stepTag m st t) (fun x hx => h x (by simp [hx])),
        stepTag_city_of_none m st t (h t (by simp))]

theorem foldl_city_isSome (m : List (String × GeoEntry)) (l : List String) :
    ∀ st : GeoState, (st.inferred_city).isSome = true →
    ((l.foldl (stepTag m) st).inferred_city).isSome = true := by
  induction l with
  | nil => intro st h; exact h
  | cons t ts ih =>
      intro st h
      rw [List.foldl_cons]
      exact ih _ (stepTag_city_isSome m st t h)

theorem foldl_city_isSome_of_tag (m : List (String × GeoEntry)) (l : List String) :
    ∀ st : GeoState, (∃ t ∈ l, (tagCity m t).isSome = true) →
    ((l.foldl (stepTag m) st).inferred_city).isSome = true := by
  induction l with
  | nil => intro st h; simp at h
  | cons t ts ih =>
      intro st h
      rw [List.foldl_cons]
      obtain ⟨w, hw, hws⟩ := h
      rcases List.mem_cons.mp hw with hw | hw
      · subst hw
        exact foldl_city_isSome m ts _ (stepTag_city_isSome_of_tag m st w hws)
      · exact ih _ ⟨w, hw, hws⟩

theorem foldl_region_isSome (m : List (String × GeoEntry)) (l : List String) :
    ∀ st : GeoState, (∀ t ∈ l, tagCity m t = none) →
    (st.inferred_region).isSome = true →
    ((l.foldl (stepTag m) st).inferred_region).isSome = true := by
  induction l with
  | nil => intro st _ h; exact h
  | cons t ts ih =>
      intro st hc h
      rw [List.foldl_cons]
      exact ih _ (fun x hx => hc x (by simp [hx]))
        (stepTag_region_isSome m st t (hc t (by simp)) h)

theorem foldl_region_isSome_of_tag (m : List (String × GeoEntry)) (l : List String) :
    ∀ st : GeoState, (∀ t ∈ l, tagCity m t = none) → st.inferred_city = none →
    (∃ t ∈ l, (tagRegion m t).isSome = true) →
    ((l.foldl (stepTag m) st).inferred_region).isSome = true := by
  induction l with
  | nil => intro st _ _ h; simp at h
  | cons t ts ih =>
      intro st hc hcity h
      rw [List.foldl_cons]
      obtain ⟨w, hw, hws⟩ := h
      rcases List.mem_cons.mp hw with hw | hw
      · subst hw
        exact foldl_region_isSome m ts _ (fun x hx => hc x (by simp [hx]))
          (stepTag_region_isSome_of_tag m st w (hc w (by simp)) hcity hws)
      · refine ih _ (fun x hx => hc x (by simp [hx])) ?_ ⟨w, hw, hws⟩
        rw [stepTag_city_of_none m st t (hc t (by simp))]
        exact hcity

theorem foldl_region_of_none (m : List (String × GeoEntry)) (l : List String) :
    ∀ st : GeoState, (∀ t ∈ l, tagCity m t = none ∧ tagRegion m t = none) →
    (l.foldl (stepTag m) st).inferred_region = st.inferred_region := by
  induction l with
  | nil => intro st _; rfl
  | cons t ts ih =>
      intro st h
      rw [List.foldl_cons, ih _ (fun x hx => h x (by simp [hx])),
        stepTag_region_of_none m st t (h t (by simp)).1 (h t (by simp)).2]

theorem foldl_country_isSome (m : List (String × GeoEntry)) (l : List String) :
    ∀ st : GeoState, (∀ t ∈ l, tagCity m t = none ∧ tagRegion m t = none) →
    (st.inferred_country).isSome = true →
    ((l.foldl (stepTag m) st).inferred_country).isSome = true := by
  induction l with
  | nil => intro st _ h; exact h
  | cons t ts ih =>
      intro st hc h
      rw [List.foldl_cons]
      exact ih _ (fun x hx => hc x (by simp [hx]))
        (stepTag_country_isSome m st t (hc t (by simp)).1 (hc t (by simp)).2 h)

theorem foldl_country_isSome_of_tag (m : List (String × GeoEntry)) (l : List String) :
    ∀ st : GeoState, (∀ t ∈ l, tagCity m t = none ∧ tagRegion m t = none) →
    st.inferred_city = none → st.inferred_region = none →
    (∃ t ∈ l, (tagCountry m t).isSome = true) →
    ((l.foldl (stepTag m) st).inferred_country).isSome = true := by
  induction l with
  | nil => intro st _ _ _ h; simp at h
  | cons t ts ih =>
      intro st hc hcity hregion h
      rw [List.foldl_cons]
      obtain ⟨w, hw, hws⟩ := h
      rcases List.mem_cons.mp hw with hw | hw
      · subst hw
        exact foldl_country_isSome m ts _ (fun x hx => hc x (by simp [hx]))
          (stepTag_country_isSome_of_tag m st w (hc w (by simp)).1 (hc w (by simp)).2
            hcity hregion hws)
      · refine ih _ (fun x hx => hc x (by simp [hx])) ?_ ?_ ⟨w, hw, hws⟩
        · rw [stepTag_city_of_none m st t (hc t (by simp)).1]
          exact hcity
        · rw [stepTag_region_of_none m st t (hc t (by simp)).1 (hc t (by simp)).2]
          exact hregion

theorem geo_location_fields (m : List (String × GeoEntry)) (post : List String)
    (hnc : ¬ 1 < (distinctCities m post).length) (hne : post ≠ []) :
    cityOfPost m post = (inferState m post).inferred_city
    ∧ regionOfPost m post = (inferState m post).inferred_region
    ∧ countryOfPost m post = (inferState m post).inferred_country := by
  have hie : post.isEmpty = false := by
    cases post with
    | nil => exact absurd rfl hne
    | cons a l => rfl
  rw [distinctCities] at hnc
  rw [cityOfPost, regionOfPost, countryOfPost, get_location_from_hashtags]
  rw [if_neg (by simp [hie]), if_neg hnc]
  by_cases hor : ((inferState m post).inferred_city).isSome = true
      ∨ ((inferState m post).inferred_region).isSome = true
      ∨ ((inferState m post).inferred_country).isSome = true
  · rw [if_pos hor]
    exact ⟨rfl, rfl, rfl⟩
  · rw [if_neg hor]
    push_neg at hor
    obtain ⟨h1, h2, h3⟩ := hor
    refine ⟨?_, ?_, ?_⟩
    · rw [Option.none_bind]
      exact (Option.not_isSome_iff_eq_none.mp h1).symm
    · rw [Option.none_bind]
      exact (Option.not_isSome_iff_eq_none.mp h2).symm
    · rw [Option.none_bind]
      exact (Option.not_isSome_iff_eq_none.mp h3).symm

theorem geo_conflict_location_none (m : List (String × GeoEntry)) (post : List String)
    (h : 1 < (distinctCities m post).length) :
    get_location_from_hashtags m post = none := by
  have hne : post ≠ [] := by
    intro h0
    rw [h0, distinctCities, inferState] at h
    simp [geoInit] at h
  have hie : post.isEmpty = false := by
    cases post with
    | nil => exact absurd rfl hne
    | cons a l => rfl
  rw [distinctCities] at h
  rw [get_location_from_hashtags, if_neg (by simp [hie]), if_pos h]

/-- C6: a post whose hashtags map to more than one distinct city yields no
inferred location at all — it contributes to none of the city, region or
country counts, even when other hashtags map only to a region or country
(the conflict short-circuits every level).  Each post without a city
conflict contributes exactly once per level, given by the fields of its
inferred location, and the inference prefers city over region over
country: any city-bearing tag yields a city; with no city-bearing tags a
region-bearing tag yields a region (and no city); with neither, a
country-bearing tag yields a country. -/
theorem geo_city_conflict_short_circuits (m : List (String × GeoEntry)) (post : List String)
    (hconf : 1 < (distinctCities m post).length) :
    get_location_from_hashtags m post = none
    ∧ (∀ (rest : List (List String)) (c : String),
        countCity m (post :: rest) c = countCity m rest c
        ∧ countRegion m (post :: rest) c = countRegion m rest c
        ∧ countCountry m (post :: rest) c = countCountry m rest c)
    ∧ (∀ (p2 : List String) (rest : List (List String)) (c : String),
        countCity m (p2 :: rest) c
          = countCity m rest c + (if cityOfPost m p2 = some c then 1 else 0)
        ∧ countRegion m (p2 :: rest) c
          = countRegion m rest c + (if regionOfPost m p2 = some c then 1 else 0)
        ∧ countCountry m (p2 :: rest) c
          = countCountry m rest c + (if countryOfPost m p2 = some c then 1 else 0))
    ∧ (∀ p2 : List String, ¬ 1 < (distinctCities m p2).length → p2 ≠ [] →
        ((∃ t ∈ p2, (tagCity m t).isSome = true) → (cityOfPost m p2).isSome = true)
        ∧ ((∀ t ∈ p2, tagCity m t = none) →
            (∃ t ∈ p2, (tagRegion m t).isSome = true) →
            cityOfPost m p2 = none ∧ (regionOfPost m p2).isSome = true)
        ∧ ((∀ t ∈ p2, tagCity m t = none ∧ tagRegion m t = none) →
            (∃ t ∈ p2, (tagCountry m t).isSome = true) →
            cityOfPost m p2 = none ∧ regionOfPost m p2 = none
              ∧ (countryOfPost m p2).isSome = true)) := by
  have hnonelocation := geo_conflict_location_none m post hconf
  have hcity0 : cityOfPost m post = none := by rw [cityOfPost, hnonelocation]; rfl
  have hregion0 : regionOfPost m post = none := by rw [regionOfPost, hnonelocation]; rfl
  have hcountry0 : countryOfPost m post = none := by rw [countryOfPost, hnonelocation]; rfl
  refine ⟨hnonelocation, ?_, ?_, ?_⟩
  · intro rest c
    refine ⟨?_, ?_, ?_⟩
    · rw [countCity, List.filter_cons, if_neg (by simp [hcity0]), countCity]
    · rw [countRegion, List.filter_cons, if_neg (by simp [hregion0]), countRegion]
    · rw [countCountry, List.filter_cons, if_neg (by simp [hcountry0]), countCountry]
  · intro p2 rest c
    refine ⟨?_, ?_, ?_⟩
    · by_cases hp : cityOfPost m p2 = some c
      · rw [countCity, List.filter_cons, if_pos (by simp [hp]), List.length_cons,
          countCity, if_pos hp]
      · rw [countCity, List.filter_cons, if_neg (by simp [hp]), countCity, if_neg hp,
          Nat.add_zero]
    · by_cases hp : regionOfPost m p2 = some c
      · rw [countRegion, List.filter_cons, if_pos (by simp [hp]), List.length_cons,
          countRegion, if_pos hp]
      · rw [countRegion, List.filter_cons, if_neg (by simp [hp]), countRegion, if_neg hp,
          Nat.add_zero]
    · by_cases hp : countryOfPost m p2 = some c
      · rw [countCountry, List.filter_cons, if_pos (by simp [hp]), List.length_cons,
          countCountry, if_pos hp]
      · rw [countCountry, List.filter_cons, if_neg (by simp [hp]), countCountry, if_neg hp,
          Nat.add_zero]
  · intro p2 hnc hne
    obtain ⟨hc, hr, hk⟩ := geo_location_fields m p2 hnc hne
    refine ⟨?_, ?_, ?_⟩
    · intro hex
      rw [hc]
      exact foldl_city_isSome_of_tag m p2 geoInit hex
    · intro hall hex
      constructor
      · rw [hc, inferState, foldl_city_of_none m p2 geoInit hall]
        rfl
      · rw [hr]
        exact foldl_region_isSome_of_tag m p2 geoInit hall rfl hex
    · intro hall hex
      refine ⟨?_, ?_, ?_⟩
      · rw [hc, inferState, foldl_city_of_none m p2 geoInit (fun t ht => (hall t ht).1)]
        rfl
      · rw [hr, inferState, foldl_region_of_none m p2 geoInit hall]
        rfl
      · rw [hk]
        exact foldl_country_isSome_of_tag m p2 geoInit hall rfl rfl hex

def geoMapEx : List (String × GeoEntry) :=
  [("nyc", { city := some "New York", region := some "New York", country := some "USA" }),
   ("la", { city := some "Los Angeles", region := some "California", country := some "USA" }),
   ("usa", { city := none, region := none, country := some "USA" })]

/-- C6 witness: `#nyc` and `#la` infer two distinct cities, so the post
contributes nothing even at the country level despite `#usa`; without the
conflict the most specific location wins. -/
theorem geo_city_conflict_short_circuits_witness :
    get_location_from_hashtags geoMapEx ["#nyc", "#la", "#usa"] = none
    ∧ countCity geoMapEx [["#nyc", "#la", "#usa"]] "New York" = 0
    ∧ countCountry geoMapEx [["#nyc", "#la", "#usa"]] "USA" = 0
    ∧ get_location_from_hashtags geoMapEx ["#la", "#usa"]
      = some { city := some "Los Angeles", region := some "California",
               country := some "USA" } :=
  ⟨(geo_city_conflict_short_circuits geoMapEx ["#nyc", "#la", "#usa"] (by decide)).1,
   ((geo_city_conflict_short_circuits geoMapEx ["#nyc", "#la", "#usa"]
      (by decide)).2.1 [] "New York").1,
   ((geo_city_conflict_short_circuits geoMapEx ["#nyc", "#la", "#usa"]
      (by decide)).2.1 [] "USA").2.2,
   by decide⟩

/-! ## Prominence update (backend/crud.py helpers; scheduler modelled from
the spec) -/

structure ProminenceUser where
  did : String
  is_prominent : Bool
deriving Repr, DecidableEq

/-- `get_all_prominent_user_dids` from backend/crud.py: the DIDs of all
users currently marked prominent. -/
def get_all_prominent_user_dids (users : List ProminenceUser) : List String :=
  (users.filter (fun u => u.is_prominent)).map (fun u => u.did)

/-- `set_user_prominence_batch` from backend/crud.py: set the flag for a
batch of DIDs. -/
def set_user_prominence_batch (users : List ProminenceUser) (dids : List String)
    (flag : Bool) : List ProminenceUser :=
  users.map (fun u => if u.did ∈ dids then { u with is_prominent := flag } else u)

/-- Modelled from the spec: the union of DIDs appearing in the cycle's
top-list outputs (`newlyProminent`); the async feed-scoped aggregation
scheduler that accumulates it is not under src/ (only its crud helpers
`get_all_prominent_user_dids` / `set_user_prominence_batch` and a
historical `aggregator_worker` are). -/
def topListUnion (topLists : List (List String)) : List String :=
  topLists.foldl (fun acc l => acc ++ l.filter (fun d => !(decide (d ∈ acc)))) []

/-- Modelled from the spec: the prominence update at the end of
`run_aggregations` in the canonical aggregation scheduler, which is not
under src/.  Per §4.3: every DID appearing in any top result joins
`newlyProminent`; then `to_add = newlyProminent − initially_prominent`,
`to_remove = initially_prominent − newlyProminent`, and `is_prominent` is
set accordingly in one batch update. -/
def run_aggregations_prominence_update (users : List ProminenceUser)
    (topLists : List (List String)) : List ProminenceUser :=
  let initially_prominent := get_all_prominent_user_dids users
  let newlyProminent := topListUnion topLists
  let to_add := newlyProminent.filter (fun d => !(decide (d ∈ initially_prominent)))
  let to_remove := initially_prominent.filter (fun d => !(decide (d ∈ newlyProminent)))
  set_user_prominence_batch (set_user_prominence_batch users to_remove false) to_add true

theorem mem_topListUnion (topLists : List (List String)) (d : String) :
    d ∈ topListUnion topLists ↔ ∃ l ∈ topLists, d ∈ l := by
  have hgen : ∀ (ls : List (List String)) (acc : List String),
      d ∈ ls.foldl (fun acc l => acc ++ l.filter (fun x => !(decide (x ∈ acc)))) acc
        ↔ d ∈ acc ∨ ∃ l ∈ ls, d ∈ l := by
    intro ls
    induction ls with
    | nil => intro acc; simp
    | cons l rest ih =>
        intro acc
        rw [List.foldl_cons, ih]
        simp only [List.mem_append, List.mem_filter, List.mem_cons]
        constructor
        · rintro (⟨h | ⟨hdl, -⟩⟩ | ⟨w, hw, hdw⟩)
          · exact Or.inl h
          · exact Or.inr ⟨l, Or.inl rfl, hdl⟩
          · exact Or.inr ⟨w, Or.inr hw, hdw⟩
        · rintro (h | ⟨w, hw | hw, hdw⟩)
          · exact Or.inl (Or.inl h)
          · by_cases hacc : d ∈ acc
            · exact Or.inl (Or.inl hacc)
            · subst hw
              exact Or.inl (Or.inr ⟨hdw, by simpa using hacc⟩)
          · exact Or.inr ⟨w, hw, hdw⟩
  rw [topListUnion, hgen]
  simp

/-- C10: after a prominence update cycle (modelled from the spec), the
users flagged prominent are exactly those whose DID appears in some
top-list of the cycle; `to_add`/`to_remove` are the two set differences,
the DID column is untouched, and the union membership is as described. -/
theorem prominence_set_equals_top_list_union (users : List ProminenceUser)
    (topLists : List (List String))
    (hdids : (users.map (fun u => u.did)).Nodup) :
    (∀ u ∈ run_aggregations_prominence_update users topLists,
        (u.is_prominent = true ↔ ∃ l ∈ topLists, u.did ∈ l))
    ∧ (run_aggregations_prominence_update users topLists).map (fun u => u.did)
        = users.map (fun u => u.did)
    ∧ (∀ d : String,
        (d ∈ (topListUnion topLists).filter
            (fun x => !(decide (x ∈ get_all_prominent_user_dids users)))
          ↔ d ∈ topListUnion topLists ∧ ¬ d ∈ get_all_prominent_user_dids users)
        ∧ (d ∈ (get_all_prominent_user_dids users).filter
            (fun x => !(decide (x ∈ topListUnion topLists)))
          ↔ d ∈ get_all_prominent_user_dids users ∧ ¬ d ∈ topListUnion topLists)) := by
  have hinj : ∀ x ∈ users, ∀ y ∈ users, x.did = y.did → x = y := by
    intro x hx y hy h
    exact List.inj_on_of_nodup_map hdids hx hy h
  have hinit : ∀ v ∈ users, (v.did ∈ get_all_prominent_user_dids users
      ↔ v.is_prominent = true) := by
    intro v hv
    constructor
    · intro h
      obtain ⟨w, hw, hwd⟩ := List.mem_map.mp h
      have hw2 := List.mem_filter.mp hw
      have hwv : w = v := hinj w hw2.1 v hv hwd
      rw [← hwv]
      exact hw2.2
    · intro h
      exact List.mem_map.mpr ⟨v, List.mem_filter.mpr ⟨hv, h⟩, rfl⟩
  have hrun : run_aggregations_prominence_update users topLists
      = users.map (fun v =>
          let v1 := if v.did ∈ (get_all_prominent_user_dids users).filter
              (fun x => !(decide (x ∈ topListUnion topLists))) then
            { v with is_prominent := false } else v
          if v1.did ∈ (topListUnion topLists).filter
              (fun x => !(decide (x ∈ get_all_prominent_user_dids users))) then
            { v1 with is_prominent := true } else v1) := by
    rw [run_aggregations_prominence_update, set_user_prominence_batch,
      set_user_prominence_batch, List.map_map]
    rfl
  refine ⟨?_, ?_, ?_⟩
  · intro u hu
    rw [hrun] at hu
    obtain ⟨v, hv, rfl⟩ := List.mem_map.mp hu
    simp only []
    rw [← mem_topListUnion]
    by_cases hrm : v.did ∈ (get_all_prominent_user_dids users).filter
        (fun x => !(decide (x ∈ topListUnion topLists)))
    · have hrm2 := List.mem_filter.mp hrm
      have hnotnew : ¬ v.did ∈ topListUnion topLists := by simpa using hrm2.2
      rw [if_pos hrm]
      rw [if_neg (by
        intro hadd
        have := (List.mem_filter.mp hadd).1
        exact hnotnew this)]
      simp [hnotnew]
    · rw [if_neg hrm]
      by_cases hadd : v.did ∈ (topListUnion topLists).filter
          (fun x => !(decide (x ∈ get_all_prominent_user_dids users)))
      · rw [if_pos hadd]
        have hadd2 := List.mem_filter.mp hadd
        simp [hadd2.1]
      · rw [if_neg hadd]
        constructor
        · intro hp
          have hin : v.did ∈ get_all_prominent_user_dids users := (hinit v hv).mpr hp
          by_contra hnew
          exact hrm (List.mem_filter.mpr ⟨hin, by simpa using hnew⟩)
        · intro hnew
          by_contra hp
          have hnotin : ¬ v.did ∈ get_all_prominent_user_dids users := by
            intro hin
            exact hp ((hinit v hv).mp hin)
          exact hadd (List.mem_filter.mpr ⟨hnew, by simpa using hnotin⟩)
  · rw [hrun, List.map_map]
    refine List.map_congr_left ?_
    intro v hv
    simp only [Function.comp]
    by_cases hrm : v.did ∈ (get_all_prominent_user_dids users).filter
        (fun x => !(decide (x ∈ topListUnion topLists)))
    · rw [if_pos hrm]
      by_cases hadd : v.did ∈ (topListUnion topLists).filter
          (fun x => !(decide (x ∈ get_all_prominent_user_dids users)))
      · rw [if_pos hadd]
      · rw [if_neg hadd]
    · rw [if_neg hrm]
      by_cases hadd : v.did ∈ (topListUnion topLists).filter
          (fun x => !(decide (x ∈ get_all_prominent_user_dids users)))
      · rw [if_pos hadd]
      · rw [if_neg hadd]
  · intro d
    constructor
    · rw [List.mem_filter]
      simp
    · rw [List.mem_filter]
      simp

def promUsersW : List ProminenceUser :=
  [{ did := "did:plc:a", is_prominent := true },
   { did := "did:plc:b", is_prominent := false },
   { did := "did:plc:c", is_prominent := true }]

def promTopListsW : List (List String) :=
  [["did:plc:b"], ["did:plc:b", "did:plc:c"]]

/-- C10 witness: a loses prominence, b gains it, c keeps it. -/
theorem prominence_set_equals_top_list_union_witness :
    (∀ u ∈ run_aggregations_prominence_update promUsersW promTopListsW,
        (u.is_prominent = true ↔ ∃ l ∈ promTopListsW, u.did ∈ l))
    ∧ run_aggregations_prominence_update promUsersW promTopListsW
      = [{ did := "did:plc:a", is_prominent := false },
         { did := "did:plc:b", is_prominent := true },
         { did := "did:plc:c", is_prominent := true }] :=
  ⟨(prominence_set_equals_top_list_union promUsersW promTopListsW (by decide)).1,
   by decide⟩
